import Mathlib

/-!
Verification of the RPC Dispatch Gateway (the `/api/rpc-proxy` route of
`server.mjs`): a shallow embedding of its endpoint pool, response cache,
per-endpoint attempt helper (`tryRpcEndpoint`), cache-key function
(`getCacheKey`) and the dispatch handler, together with proofs of the
specification claims about them.

Modelling conventions:
  * JavaScript strings are `List Char`.
  * Machine time (`Date.now()`) is an explicit `Nat` parameter; within one
    dispatch every `Date.now()` call returns the same instant (the handler
    performs no waiting between them that the claims depend on).
  * JSON values are the inductive `Json` below; `JSON.stringify` is
    `stringify`; a missing field (JavaScript `undefined`) is `Option.none`,
    which is distinct from `Json.null`.
  * The network is an oracle: each endpoint of the pool is paired with the
    `FetchOutcome` its upstream would produce if contacted.
-/

set_option maxHeartbeats 1600000

namespace X402Rpc

/-- JSON values as parsed from request and response bodies.  Numbers are
modelled as integers (the RPC traffic of this service carries integral
numbers only); object fields keep their textual order, as JavaScript
objects do. -/
inductive Json where
  | null : Json
  | bool (b : Bool) : Json
  | num (n : Int) : Json
  | str (s : List Char) : Json
  | arr (elems : List Json) : Json
  | obj (fields : List (List Char × Json)) : Json
deriving Repr

mutual

/-- Structural equality of JSON values is decidable (the nested `List`
positions rule out the deriving handler, so the decision procedure is
spelled out). -/
def jsonDecEq : (a b : Json) → Decidable (a = b)
  | .null, .null => isTrue rfl
  | .bool a, .bool b =>
    match decEq a b with
    | isTrue h => isTrue (h ▸ rfl)
    | isFalse h => isFalse fun hh => h (Json.bool.inj hh)
  | .num a, .num b =>
    match decEq a b with
    | isTrue h => isTrue (h ▸ rfl)
    | isFalse h => isFalse fun hh => h (Json.num.inj hh)
  | .str a, .str b =>
    match decEq a b with
    | isTrue h => isTrue (h ▸ rfl)
    | isFalse h => isFalse fun hh => h (Json.str.inj hh)
  | .arr x, .arr y =>
    match jsonDecEqList x y with
    | isTrue h => isTrue (h ▸ rfl)
    | isFalse h => isFalse fun hh => h (Json.arr.inj hh)
  | .obj x, .obj y =>
    match jsonDecEqFields x y with
    | isTrue h => isTrue (h ▸ rfl)
    | isFalse h => isFalse fun hh => h (Json.obj.inj hh)
  | .null, .bool _ | .null, .num _ | .null, .str _ | .null, .arr _ | .null, .obj _
  | .bool _, .null | .bool _, .num _ | .bool _, .str _ | .bool _, .arr _ | .bool _, .obj _
  | .num _, .null | .num _, .bool _ | .num _, .str _ | .num _, .arr _ | .num _, .obj _
  | .str _, .null | .str _, .bool _ | .str _, .num _ | .str _, .arr _ | .str _, .obj _
  | .arr _, .null | .arr _, .bool _ | .arr _, .num _ | .arr _, .str _ | .arr _, .obj _
  | .obj _, .null | .obj _, .bool _ | .obj _, .num _ | .obj _, .str _ | .obj _, .arr _ =>
    isFalse fun h => Json.noConfusion h

/-- Decidable equality of element lists. -/
def jsonDecEqList : (a b : List Json) → Decidable (a = b)
  | [], [] => isTrue rfl
  | [], _ :: _ => isFalse fun h => List.noConfusion h
  | _ :: _, [] => isFalse fun h => List.noConfusion h
  | x :: xs, y :: ys =>
    match jsonDecEq x y with
    | isFalse h => isFalse fun hh => h (List.cons.inj hh).1
    | isTrue h1 =>
      match jsonDecEqList xs ys with
      | isTrue h2 => isTrue (h1 ▸ h2 ▸ rfl)
      | isFalse h2 => isFalse fun hh => h2 (List.cons.inj hh).2

/-- Decidable equality of field lists. -/
def jsonDecEqFields : (a b : List (List Char × Json)) → Decidable (a = b)
  | [], [] => isTrue rfl
  | [], _ :: _ => isFalse fun h => List.noConfusion h
  | _ :: _, [] => isFalse fun h => List.noConfusion h
  | (k₁, v₁) :: xs, (k₂, v₂) :: ys =>
    match decEq k₁ k₂ with
    | isFalse h => isFalse fun hh => h (congrArg Prod.fst (List.cons.inj hh).1)
    | isTrue h1 =>
      match jsonDecEq v₁ v₂ with
      | isFalse h => isFalse fun hh => h (congrArg Prod.snd (List.cons.inj hh).1)
      | isTrue h2 =>
        match jsonDecEqFields xs ys with
        | isTrue h3 => isTrue (h1 ▸ h2 ▸ h3 ▸ rfl)
        | isFalse h3 => isFalse fun hh => h3 (List.cons.inj hh).2

end

instance : DecidableEq Json := jsonDecEq

/-- The left-brace character, written by codepoint. -/
def lbrace : Char := Char.ofNat 123

/-- The right-brace character, written by codepoint. -/
def rbrace : Char := Char.ofNat 125

/-- Decimal digit to character, as JavaScript number printing uses. -/
def digitCh (n : Nat) : Char := Char.ofNat (48 + n)

/-- Lowercase hexadecimal digit, as `JSON.stringify`'s `\u00XX` escapes use. -/
def hexDigit (n : Nat) : Char :=
  if n < 10 then Char.ofNat (48 + n) else Char.ofNat (87 + n)

/-- Decimal digits of a natural number, most significant first; `fuel`
bounds the recursion depth (any `fuel > n` gives the true digit string). -/
def natCharsAux : Nat → Nat → List Char
  | 0, _ => []
  | fuel + 1, n =>
    if n < 10 then [digitCh n]
    else natCharsAux fuel (n / 10) ++ [digitCh (n % 10)]

/-- Decimal representation of a natural number. -/
def natChars (n : Nat) : List Char := natCharsAux (n + 1) n

/-- Decimal representation of an integer, as JavaScript prints integral
numbers. -/
def intChars : Int → List Char
  | .ofNat n => natChars n
  | .negSucc m => '-' :: natChars (m + 1)

/-- `JSON.stringify`'s escaping of one string character: quote, backslash,
the named control escapes, `\u00XX` for the remaining control characters,
every other character verbatim. -/
def escChar (c : Char) : List Char :=
  if c.toNat = 34 then ['\\', '"']
  else if c.toNat = 92 then ['\\', '\\']
  else if c.toNat = 10 then ['\\', 'n']
  else if c.toNat = 13 then ['\\', 'r']
  else if c.toNat = 9 then ['\\', 't']
  else if c.toNat = 8 then ['\\', 'b']
  else if c.toNat = 12 then ['\\', 'f']
  else if c.toNat < 32 then
    ['\\', 'u', '0', '0', hexDigit (c.toNat / 16), hexDigit (c.toNat % 16)]
  else [c]

/-- `JSON.stringify`'s escaping of a whole string body. -/
def escStr : List Char → List Char
  | [] => []
  | c :: tl => escChar c ++ escStr tl

mutual

/-- `JSON.stringify` on a JSON value (no spacing arguments, as the source
calls it). -/
def stringify : Json → List Char
  | .null => "null".toList
  | .bool true => "true".toList
  | .bool false => "false".toList
  | .num n => intChars n
  | .str s => '"' :: (escStr s ++ ['"'])
  | .arr es => '[' :: (stringifyElems es ++ [']'])
  | .obj fs => lbrace :: (stringifyFields fs ++ [rbrace])

/-- Array elements joined with commas. -/
def stringifyElems : List Json → List Char
  | [] => []
  | [x] => stringify x
  | x :: y :: tl => stringify x ++ ',' :: stringifyElems (y :: tl)

/-- Object fields (`"key":value`) joined with commas. -/
def stringifyFields : List (List Char × Json) → List Char
  | [] => []
  | [(k, v)] => '"' :: (escStr k ++ '"' :: ':' :: stringify v)
  | (k, v) :: q :: tl =>
    ('"' :: (escStr k ++ '"' :: ':' :: stringify v)) ++ ',' :: stringifyFields (q :: tl)

end

/-! ## JavaScript value semantics used by the source -/

/-- JavaScript truthiness of a JSON value (`null`, `false`, `0` and the
empty string are falsy; every array and object is truthy). -/
def truthy : Json → Bool
  | .null => false
  | .bool b => b
  | .num n => n != 0
  | .str s => !s.isEmpty
  | .arr _ => true
  | .obj _ => true

/-- Truthiness of a possibly-`undefined` value (`undefined` is falsy). -/
def truthyO : Option Json → Bool
  | none => false
  | some v => truthy v

/-- First-match field lookup.  Values produced by `JSON.parse` carry each
key at most once (a repeated key keeps only its last occurrence), so
first-match lookup agrees with JavaScript property access on every value
the source can pass here. -/
def lookupField : List (List Char × Json) → List Char → Option Json
  | [], _ => none
  | (k', v) :: tl, k => if k' = k then some v else lookupField tl k

/-- JavaScript property access `v[k]`: a field of an object, `undefined`
(`none`) on any non-object.  Access on `Json.null` — which throws a
`TypeError` in JavaScript — is handled explicitly at each use site. -/
def jsField : Json → List Char → Option Json
  | .obj fs, k => lookupField fs k
  | _, _ => none

/-- `String.prototype.includes`: whether `needle` occurs contiguously in
`hay`. -/
def containsSub : List Char → List Char → Bool
  | [], needle => needle.isEmpty
  | c :: tl, needle => needle.isPrefixOf (c :: tl) || containsSub tl needle

/-! ## Endpoint pool -/

/-- One upstream RPC provider of the static `RPC_ENDPOINTS` list:
`{ url, name, rateLimitedUntil }`. -/
structure Endpoint where
  url : List Char
  name : List Char
  rateLimitedUntil : Nat
deriving Repr, DecidableEq

/-- The cooldown written by both rate-limit branches of `tryRpcEndpoint`
(`Date.now() + 30000`). -/
def RATE_LIMIT_COOLDOWN_MS : Nat := 30000

/-- The cache lifetime (`CACHE_TTL_MS = 3000`). -/
def CACHE_TTL_MS : Nat := 3000

/-- The spec's `markRateLimited(endpoint, now, cooldownDuration)`; the
source writes it inline as `endpoint.rateLimitedUntil = Date.now() + 30000`
at both rate-limit branches of `tryRpcEndpoint`. -/
def markRateLimited (e : Endpoint) (now cooldown : Nat) : Endpoint :=
  { e with rateLimitedUntil := now + cooldown }

/-! ## The network oracle and `tryRpcEndpoint` -/

deriving instance DecidableEq for Except

/-- What `fetch` against one endpoint would yield: a rejected promise
(timeout, abort, connection failure) with an error message, or an HTTP
response with a status code and a body that either parses as JSON or makes
`response.json()` reject with some message. -/
inductive FetchOutcome where
  | netError (msg : List Char) : FetchOutcome
  | response (status : Nat) (body : Except (List Char) Json) : FetchOutcome
deriving Repr, DecidableEq

/-- Result of one `tryRpcEndpoint` call: the parsed body on success, or
the message of the thrown error. -/
inductive TryOutcome where
  | success (data : Json) : TryOutcome
  | failure (msg : List Char) : TryOutcome
deriving Repr, DecidableEq

/-- The `'rate limit'` literal of the body classifier. -/
def rateLimitText : List Char := "rate limit".toList

/-- The `"result"` member name. -/
def resultKey : List Char := "result".toList

/-- The `"error"` member name. -/
def errorKey : List Char := "error".toList

/-- The `"code"` member name. -/
def codeKey : List Char := "code".toList

/-- The `"message"` member name. -/
def messageKey : List Char := "message".toList

/-- Stand-in message for a `TypeError` raised while evaluating the body
classifier (e.g. `data.error` on a `null` body); the engine-specific text
does not matter to any claim. -/
def typeErrorMsg : List Char := "TypeError".toList

/-- `` `Rate limited (${status})` ``. -/
def rateLimitedStatusMsg (status : Nat) : List Char :=
  "Rate limited (".toList ++ natChars status ++ [')']

/-- `` `HTTP ${status}` ``. -/
def httpStatusMsg (status : Nat) : List Char :=
  "HTTP ".toList ++ natChars status

/-- `'RPC rate limited'`. -/
def rpcRateLimitedMsg : List Char := "RPC rate limited".toList

/-- The body-level rate-limit test
`data.error && (data.error.code === -32005 ||
data.error.message?.includes('rate limit'))`, with JavaScript's evaluation
order and its `TypeError`s: property access on a `null` body throws, and so
does calling `.includes` on a message that is neither a string, an array,
nor nullish (arrays do carry an `includes`, which then compares elements
with strict equality). -/
def isRateLimitSignature (data : Json) : Except (List Char) Bool :=
  match data with
  | .null => .error typeErrorMsg
  | _ =>
    match jsField data errorKey with
    | none => .ok false
    | some e =>
      if truthy e = false then .ok false
      else if (match jsField e codeKey with
               | some (.num n) => n == -32005
               | _ => false) then .ok true
      else
        match jsField e messageKey with
        | none => .ok false
        | some .null => .ok false
        | some (.str s) => .ok (containsSub s rateLimitText)
        | some (.arr xs) =>
          .ok (xs.any fun j =>
            match j with
            | .str s => s == rateLimitText
            | _ => false)
        | some _ => .error typeErrorMsg

/-- `tryRpcEndpoint(endpoint, body, timeout)`, with the network call
replaced by its outcome and `Date.now()` by `now`.  Returns the value the
promise resolves to (or the thrown error's message) together with the
endpoint as the call leaves it. -/
def tryRpcEndpoint (endpoint : Endpoint) (outcome : FetchOutcome) (now : Nat) :
    TryOutcome × Endpoint :=
  match outcome with
  | .netError msg => (.failure msg, endpoint)
  | .response status body =>
    if status = 429 ∨ status = 503 ∨ status = 1015 then
      (.failure (rateLimitedStatusMsg status),
       markRateLimited endpoint now RATE_LIMIT_COOLDOWN_MS)
    else if ¬(200 ≤ status ∧ status ≤ 299) then
      (.failure (httpStatusMsg status), endpoint)
    else
      match body with
      | .error msg => (.failure msg, endpoint)
      | .ok data =>
        match isRateLimitSignature data with
        | .error msg => (.failure msg, endpoint)
        | .ok true =>
          (.failure rpcRateLimitedMsg,
           markRateLimited endpoint now RATE_LIMIT_COOLDOWN_MS)
        | .ok false => (.success data, endpoint)

/-! ## Response cache and cache key -/

/-- One `rpcCache` entry: `{ result, expiresAt }`. -/
structure CacheEntry where
  result : Json
  expiresAt : Nat
deriving Repr, DecidableEq

/-- The `rpcCache` map, as an insertion-ordered association list with
unique keys, which is exactly a JavaScript `Map`. -/
abbrev RpcCache := List (List Char × CacheEntry)

/-- `rpcCache.get(key)`. -/
def cacheGet : RpcCache → List Char → Option CacheEntry
  | [], _ => none
  | (k', v) :: tl, k => if k' = k then some v else cacheGet tl k

/-- `rpcCache.set(key, value)`: overwrite in place when the key exists,
else append (a `Map` keeps first-insertion order). -/
def cacheSet (c : RpcCache) (k : List Char) (v : CacheEntry) : RpcCache :=
  if c.any (fun p => p.1 == k) then
    c.map fun p => if p.1 == k then (k, v) else p
  else c ++ [(k, v)]

/-- The cacheable-method whitelist of `getCacheKey`. -/
def cacheableMethods : List (List Char) :=
  ["eth_blockNumber".toList, "eth_chainId".toList,
   "net_version".toList, "eth_gasPrice".toList]

/-- `getCacheKey(method, params)`: `null` (`none`) off the whitelist, else
`` `${method}:${JSON.stringify(params || [])}` ``.  `cacheable.includes`
compares with strict equality, so a non-string method never matches. -/
def getCacheKey (method : Json) (params : Json) : Option (List Char) :=
  match method with
  | .str s =>
    if cacheableMethods.contains s then
      some (s ++ ':' :: stringify (if truthy params then params else .arr []))
    else none
  | _ => none

/-! ## The dispatch handler -/

/-- The inbound body's destructured fields
(`const { jsonrpc = "2.0", method, params = [], id = 1 } = req.body`);
`none` is an absent (`undefined`) field, defaults are applied inside
`dispatch`. -/
structure RpcRequest where
  jsonrpc : Option Json
  method : Option Json
  params : Option Json
  id : Option Json
deriving Repr, DecidableEq

/-- The `_meta` block of every non-4xx proxy response. -/
structure Meta where
  rpcUsed : Option (List Char)
  latencyMs : Nat
  cachedResult : Bool
  retries : Nat
deriving Repr, DecidableEq

/-- One proxy response: its HTTP status, the echoed `id`, the optional
`result` and `error` members (`none` = field absent), and the optional
`_meta` block (absent only on the invalid-request reply).  The `jsonrpc`
member is the constant `"2.0"` on every path and is not repeated here. -/
structure ProxyResponse where
  status : Nat
  id : Json
  result : Option Json
  error : Option Json
  meta : Option Meta
deriving Repr, DecidableEq

/-- Everything one dispatch leaves behind: the reply sent and the endpoint
pool and cache as the handler leaves them. -/
structure DispatchResult where
  response : ProxyResponse
  endpoints : List Endpoint
  cache : RpcCache
deriving Repr, DecidableEq

/-- `{ code: -32600, message: "Invalid Request: method required" }`. -/
def invalidRequestError : Json :=
  .obj [("code".toList, .num (-32600)),
        ("message".toList, .str ("Invalid Request: method required".toList))]

/-- The `error.data` of the total-failure reply:
`{ lastError: lastError?.message, endpointsTried: retries, suggestion }`
(an `undefined` member is dropped by serialization). -/
def allFailedData (lastError : Option (List Char)) (tried : Nat) : Json :=
  .obj ((match lastError with
         | some m => [("lastError".toList, Json.str m)]
         | none => []) ++
        [("endpointsTried".toList, Json.num tried),
         ("suggestion".toList, Json.str ("Try again in 30 seconds".toList))])

/-- The total-failure `error` member:
`{ code: -32603, message: "All RPC endpoints unavailable", data: … }`. -/
def allFailedError (lastError : Option (List Char)) (tried : Nat) : Json :=
  .obj [("code".toList, .num (-32603)),
        ("message".toList, .str ("All RPC endpoints unavailable".toList)),
        ("data".toList, allFailedData lastError tried)]

/-- The 400 reply for a missing/empty `method` (no `_meta` block). -/
def invalidReqResponse (id : Json) : ProxyResponse :=
  { status := 400, id := id, result := none,
    error := some invalidRequestError, meta := none }

/-- The 503 reply after the loop exhausts the pool. -/
def allFailedResponse (id : Json) (retries : Nat)
    (lastError : Option (List Char)) : ProxyResponse :=
  { status := 503, id := id, result := none,
    error := some (allFailedError lastError retries),
    meta := some { rpcUsed := none, latencyMs := 0,
                   cachedResult := false, retries := retries } }

/-- The fresh-cache-hit reply. -/
def cacheHitResponse (id : Json) (entry : CacheEntry) : ProxyResponse :=
  { status := 200, id := id, result := some entry.result, error := none,
    meta := some { rpcUsed := some ("cache".toList), latencyMs := 0,
                   cachedResult := true, retries := 0 } }

/-- State returned by the endpoint loop: the success reply if any attempt
succeeded, the endpoints as the loop leaves them, the cache, and the
running `retries` / `lastError` accumulators. -/
structure LoopResult where
  response : Option ProxyResponse
  endpoints : List Endpoint
  cache : RpcCache
  retries : Nat
  lastError : Option (List Char)
deriving Repr, DecidableEq

/-- The `for (const endpoint of RPC_ENDPOINTS)` loop: skip an endpoint
whose `rateLimitedUntil > Date.now()`; otherwise attempt it, and on
success write the cache (key known, `result.result !== undefined`,
`!result.error`) and build the 200 reply; on a thrown error record it and
continue with `retries + 1`.  `latencyMs` is `Date.now() - startTime`,
which is `0` under the constant-clock convention. -/
def runEndpoints (now : Nat) (cacheKey : Option (List Char)) (id : Json) :
    List (Endpoint × FetchOutcome) → RpcCache → Nat → Option (List Char) → LoopResult
  | [], cache, retries, lastError =>
    ⟨none, [], cache, retries, lastError⟩
  | (e, out) :: rest, cache, retries, lastError =>
    if e.rateLimitedUntil > now then
      let r := runEndpoints now cacheKey id rest cache retries lastError
      { r with endpoints := e :: r.endpoints }
    else
      match tryRpcEndpoint e out now with
      | (.success data, e') =>
        let newCache :=
          match cacheKey with
          | some k =>
            match jsField data resultKey with
            | some r0 =>
              if truthyO (jsField data errorKey) then cache
              else cacheSet cache k ⟨r0, now + CACHE_TTL_MS⟩
            | none => cache
          | none => cache
        { response := some
            { status := 200, id := id,
              result := jsField data resultKey,
              error := jsField data errorKey,
              meta := some { rpcUsed := some e'.name, latencyMs := 0,
                             cachedResult := false, retries := retries } },
          endpoints := e' :: rest.map Prod.fst,
          cache := newCache, retries := retries, lastError := lastError }
      | (.failure msg, e') =>
        let r := runEndpoints now cacheKey id rest cache (retries + 1) (some msg)
        { r with endpoints := e' :: r.endpoints }

/-- The part of the handler after the cache check: run the loop from
`retries = 0`, `lastError = null`; if no attempt succeeded, send the 503
total-failure reply. -/
def dispatchLoop (id : Json) (cacheKey : Option (List Char))
    (pool : List (Endpoint × FetchOutcome)) (cache : RpcCache) (now : Nat) :
    DispatchResult :=
  let r := runEndpoints now cacheKey id pool cache 0 none
  match r.response with
  | some resp => { response := resp, endpoints := r.endpoints, cache := r.cache }
  | none =>
    { response := allFailedResponse id r.retries r.lastError,
      endpoints := r.endpoints, cache := r.cache }

/-- The `app.post("/api/rpc-proxy")` handler: destructure with defaults,
reject a falsy `method` with 400, serve a fresh cache hit, otherwise run
the endpoint loop.  `pool` pairs each endpoint of `RPC_ENDPOINTS` with the
outcome its upstream would produce if contacted. -/
def dispatch (req : RpcRequest) (pool : List (Endpoint × FetchOutcome))
    (cache : RpcCache) (now : Nat) : DispatchResult :=
  let id := req.id.getD (Json.num 1)
  if truthyO req.method = false then
    { response := invalidReqResponse id, endpoints := pool.map Prod.fst, cache := cache }
  else
    let method := req.method.getD Json.null
    let params := req.params.getD (Json.arr [])
    match getCacheKey method params with
    | some k =>
      (match cacheGet cache k with
       | some entry =>
         if entry.expiresAt > now then
           { response := cacheHitResponse id entry,
             endpoints := pool.map Prod.fst, cache := cache }
         else dispatchLoop id (some k) pool cache now
       | none => dispatchLoop id (some k) pool cache now)
    | none => dispatchLoop id none pool cache now

/-! ## Specification-side helper functions (used only to state claims) -/

/-- The cache key the handler computes for a request (after the
destructuring defaults). -/
def requestCacheKey (req : RpcRequest) : Option (List Char) :=
  getCacheKey (req.method.getD .null) (req.params.getD (.arr []))

/-- The fresh cache entry the handler's cache check would serve, if any. -/
def freshHit (cache : RpcCache) (ck : Option (List Char)) (now : Nat) :
    Option CacheEntry :=
  match ck with
  | some k =>
    match cacheGet cache k with
    | some e => if e.expiresAt > now then some e else none
    | none => none
  | none => none

/-- Whether the loop would attempt this pool entry (its endpoint is not
cooling down). -/
def eligibleAt (now : Nat) (p : Endpoint × FetchOutcome) : Bool :=
  decide (p.1.rateLimitedUntil ≤ now)

/-- Whether attempting this pool entry throws (any failure class). -/
def tryFails (now : Nat) (p : Endpoint × FetchOutcome) : Bool :=
  match (tryRpcEndpoint p.1 p.2 now).1 with
  | .failure _ => true
  | .success _ => false

/-- The message of the last failing attempt over a pool fragment, given
the message accumulated so far (mirrors the loop's `lastError`
accumulator; successes, which end the real loop, leave it untouched). -/
def lastFailMsg (now : Nat) :
    List (Endpoint × FetchOutcome) → Option (List Char) → Option (List Char)
  | [], acc => acc
  | p :: tl, acc =>
    if p.1.rateLimitedUntil ≤ now then
      match (tryRpcEndpoint p.1 p.2 now).1 with
      | .failure m => lastFailMsg now tl (some m)
      | .success _ => lastFailMsg now tl acc
    else lastFailMsg now tl acc

/-- The endpoint's state after the loop passes over its pool entry: the
attempt's outcome when eligible, untouched when skipped. -/
def endpointAfter (now : Nat) (p : Endpoint × FetchOutcome) : Endpoint :=
  if p.1.rateLimitedUntil ≤ now then (tryRpcEndpoint p.1 p.2 now).2 else p.1

/-- The claim's notion of a rate-limit signal, read off one fetch outcome:
a throttling HTTP status (429, 503, 1015), or a successful status whose
parsed body matches the rate-limit signature. -/
def rateLimitSignal (out : FetchOutcome) : Bool :=
  match out with
  | .netError _ => false
  | .response status body =>
    if status = 429 ∨ status = 503 ∨ status = 1015 then true
    else if ¬(200 ≤ status ∧ status ≤ 299) then false
    else
      match body with
      | .error _ => false
      | .ok data =>
        match isRateLimitSignature data with
        | .ok true => true
        | _ => false

/-- Numeric value of a digit string (specification-side inverse of
`natChars`). -/
def digitsVal (l : List Char) : Nat :=
  l.foldl (fun a c => 10 * a + (c.toNat - 48)) 0

/-- A decimal digit character. -/
def isDigitCh (c : Char) : Prop := 48 ≤ c.toNat ∧ c.toNat ≤ 57

/-- The list does not begin with a decimal digit (the context in which a
serialized number is unambiguous). -/
def noDigitHead : List Char → Prop
  | [] => True
  | c :: _ => ¬isDigitCh c

/-- A character `JSON.stringify` leaves unescaped. -/
def plainCh (c : Char) : Prop :=
  c.toNat ≠ 34 ∧ c.toNat ≠ 92 ∧ 32 ≤ c.toNat

/-- Tag of a JSON constructor (both booleans share one tag). -/
def ctorTag : Json → Nat
  | .null => 0
  | .bool _ => 1
  | .num _ => 2
  | .str _ => 3
  | .arr _ => 4
  | .obj _ => 5

/-- Constructor tag recoverable from the first serialized character. -/
def headTagOfChar (c : Char) : Nat :=
  if c.toNat = 110 then 0
  else if c.toNat = 116 ∨ c.toNat = 102 then 1
  else if (48 ≤ c.toNat ∧ c.toNat ≤ 57) ∨ c.toNat = 45 then 2
  else if c.toNat = 34 then 3
  else if c.toNat = 91 then 4
  else if c.toNat = 123 then 5
  else 9

/-! # Theorems

First the helper lemmas about the loop and the attempt helper, then one
theorem per specification claim (with a witness where the claim's theorem
carries hypotheses). -/

/-- A successful attempt leaves the endpoint exactly as it was (both
rate-limit branches throw, so they never reach the `return data`). -/
theorem tryRpcEndpoint_success_endpoint {e : Endpoint} {out : FetchOutcome}
    {now : Nat} {data : Json}
    (h : (tryRpcEndpoint e out now).1 = .success data) :
    tryRpcEndpoint e out now = (.success data, e) := by
  cases out with
  | netError msg => simp [tryRpcEndpoint] at h
  | response status body =>
    simp only [tryRpcEndpoint] at h ⊢
    split at h
    · simp at h
    · split at h
      · simp at h
      · cases body with
        | error msg => simp at h
        | ok d =>
          simp only at h ⊢
          split at h
          · simp at h
          · simp at h
          · simp_all

/-- The endpoint after one attempt: updated exactly on a rate-limit
signal, untouched otherwise. -/
theorem tryRpcEndpoint_endpoint_eq (e : Endpoint) (out : FetchOutcome) (now : Nat) :
    (tryRpcEndpoint e out now).2 =
      (if rateLimitSignal out then markRateLimited e now RATE_LIMIT_COOLDOWN_MS
       else e) := by
  cases out with
  | netError msg => simp [tryRpcEndpoint, rateLimitSignal]
  | response status body =>
    simp only [tryRpcEndpoint, rateLimitSignal]
    split
    · simp
    · split
      · simp
      · cases body with
        | error msg => simp
        | ok d =>
          simp only
          split
          · simp_all
          · simp_all
          · simp_all

/-- **C9.** A single `tryRpcEndpoint` call changes at most the
`rateLimitedUntil` field of its endpoint, and does so exactly when the
outcome is a rate-limit signal (throttling HTTP status 429/503/1015, or a
parsed body matching the rate-limit signature), setting it to
`now + 30000`; on every other outcome the endpoint is returned unchanged,
and `url` and `name` are never mutated. -/
theorem C9_tryRpcEndpoint_frame (e : Endpoint) (out : FetchOutcome) (now : Nat) :
    (tryRpcEndpoint e out now).2 =
      (if rateLimitSignal out then markRateLimited e now RATE_LIMIT_COOLDOWN_MS
       else e) ∧
    (tryRpcEndpoint e out now).2.url = e.url ∧
    (tryRpcEndpoint e out now).2.name = e.name := by
  refine ⟨tryRpcEndpoint_endpoint_eq e out now, ?_, ?_⟩ <;>
    rw [tryRpcEndpoint_endpoint_eq] <;> split <;> simp [markRateLimited]

/-- **C5.** `markRateLimited` always recomputes the deadline from the
current clock: a second call at `now₂` (after `now₁`, before the first
deadline) sets `rateLimitedUntil` to `now₂ + cooldown`, strictly later
than the first deadline, so moving time forward never retracts a
cooldown. -/
theorem C5_markRateLimited_recomputes (e : Endpoint) (now₁ now₂ cooldown : Nat)
    (h₁₂ : now₁ < now₂)
    (hactive : now₂ < (markRateLimited e now₁ cooldown).rateLimitedUntil) :
    (markRateLimited (markRateLimited e now₁ cooldown) now₂ cooldown).rateLimitedUntil
      = now₂ + cooldown ∧
    (markRateLimited e now₁ cooldown).rateLimitedUntil
      < (markRateLimited (markRateLimited e now₁ cooldown) now₂ cooldown).rateLimitedUntil := by
  simp [markRateLimited] at *
  omega

/-- Witness for C5 at a concrete endpoint and clock. -/
theorem C5_witness :
    (0 : Nat) < 5 ∧
    5 < (markRateLimited ⟨[], [], 0⟩ 0 30000).rateLimitedUntil ∧
    (markRateLimited (markRateLimited ⟨[], [], 0⟩ 0 30000) 5 30000).rateLimitedUntil
      = 5 + 30000 ∧
    (markRateLimited ⟨[], [], 0⟩ 0 30000).rateLimitedUntil
      < (markRateLimited (markRateLimited ⟨[], [], 0⟩ 0 30000) 5 30000).rateLimitedUntil :=
  ⟨by decide, by decide,
   C5_markRateLimited_recomputes ⟨[], [], 0⟩ 0 5 30000 (by decide) (by decide)⟩

/-- **C6.** A request with no `method` member gets the fixed
`InvalidRequest` reply (code −32600, HTTP 400, no `_meta`), the endpoint
pool and the cache are left unchanged, and no endpoint is contacted: the
result does not depend on the network oracle at all. -/
theorem C6_missing_method (req : RpcRequest) (pool : List (Endpoint × FetchOutcome))
    (cache : RpcCache) (now : Nat) (hm : req.method = none) :
    dispatch req pool cache now =
      { response := invalidReqResponse (req.id.getD (.num 1)),
        endpoints := pool.map Prod.fst, cache := cache } ∧
    (dispatch req pool cache now).response.error = some invalidRequestError ∧
    (dispatch req pool cache now).response.status = 400 ∧
    (∀ pool' : List (Endpoint × FetchOutcome),
      pool'.map Prod.fst = pool.map Prod.fst →
      dispatch req pool' cache now = dispatch req pool cache now) := by
  refine ⟨?_, ?_, ?_, ?_⟩ <;>
    simp_all [dispatch, truthyO, invalidReqResponse]

/-- Witness for C6 on a one-endpoint pool. -/
theorem C6_witness :
    ({ jsonrpc := none, method := none, params := none,
       id := none } : RpcRequest).method = none ∧
    (dispatch { jsonrpc := none, method := none, params := none, id := none }
        [(⟨[], [], 0⟩, .netError [])] [] 7 =
      { response := invalidReqResponse ((none : Option Json).getD (.num 1)),
        endpoints := [(⟨[], [], 0⟩, FetchOutcome.netError [])].map Prod.fst,
        cache := [] } ∧
     (dispatch { jsonrpc := none, method := none, params := none, id := none }
        [(⟨[], [], 0⟩, .netError [])] [] 7).response.error
        = some invalidRequestError ∧
     (dispatch { jsonrpc := none, method := none, params := none, id := none }
        [(⟨[], [], 0⟩, .netError [])] [] 7).response.status = 400 ∧
     (∀ pool' : List (Endpoint × FetchOutcome),
        pool'.map Prod.fst = [(⟨[], [], 0⟩, FetchOutcome.netError [])].map Prod.fst →
        dispatch { jsonrpc := none, method := none, params := none, id := none }
          pool' [] 7 =
        dispatch { jsonrpc := none, method := none, params := none, id := none }
          [(⟨[], [], 0⟩, .netError [])] [] 7)) :=
  ⟨rfl, C6_missing_method _ [(⟨[], [], 0⟩, .netError [])] [] 7 rfl⟩

/-- With a truthy `method` and no fresh cache entry at the request's key,
the handler proceeds to the endpoint loop. -/
theorem dispatch_eq_loop (req : RpcRequest) (pool : List (Endpoint × FetchOutcome))
    (cache : RpcCache) (now : Nat)
    (hm : truthyO req.method = true)
    (hnohit : freshHit cache (requestCacheKey req) now = none) :
    dispatch req pool cache now =
      dispatchLoop (req.id.getD (.num 1)) (requestCacheKey req) pool cache now := by
  unfold dispatch
  rw [hm]
  simp only [Bool.true_eq_false, if_false]
  unfold requestCacheKey at *
  cases hk : getCacheKey (req.method.getD .null) (req.params.getD (.arr [])) with
  | none => simp [hk]
  | some k =>
    simp only [hk] at hnohit ⊢
    cases hc : cacheGet cache k with
    | none => simp [freshHit, hc]
    | some entry =>
      simp only [freshHit, hc] at hnohit
      have : ¬(entry.expiresAt > now) := by
        intro hgt
        rw [if_pos hgt] at hnohit
        exact Option.noConfusion hnohit
      simp [this]

/-- Skipped (cooling-down) endpoints pass through the loop untouched and
uncounted; the loop continues on the rest of the pool. -/
theorem runEndpoints_front_skips (now : Nat) (ck : Option (List Char)) (id : Json)
    (pre rest : List (Endpoint × FetchOutcome)) (cache : RpcCache) (r : Nat)
    (le : Option (List Char)) (hpre : ∀ p ∈ pre, now < p.1.rateLimitedUntil) :
    runEndpoints now ck id (pre ++ rest) cache r le =
      { runEndpoints now ck id rest cache r le with
        endpoints :=
          pre.map Prod.fst ++ (runEndpoints now ck id rest cache r le).endpoints } := by
  induction pre with
  | nil => simp
  | cons p tl ih =>
    obtain ⟨pe, pout⟩ := p
    have hp : pe.rateLimitedUntil > now := hpre (pe, pout) (by simp)
    simp only [List.cons_append, runEndpoints, if_pos hp, List.append_eq]
    rw [ih (fun q hq => hpre q (by simp [hq]))]
    simp

/-- Unfolding of the loop at an eligible head endpoint whose attempt
succeeds. -/
theorem runEndpoints_success_head (now : Nat) (ck : Option (List Char)) (id : Json)
    (e : Endpoint) (out : FetchOutcome) (rest : List (Endpoint × FetchOutcome))
    (cache : RpcCache) (r : Nat) (le : Option (List Char)) (data : Json)
    (hel : e.rateLimitedUntil ≤ now)
    (hsucc : (tryRpcEndpoint e out now).1 = .success data) :
    runEndpoints now ck id ((e, out) :: rest) cache r le =
      { response := some
          { status := 200, id := id,
            result := jsField data resultKey,
            error := jsField data errorKey,
            meta := some ⟨some e.name, 0, false, r⟩ },
        endpoints := e :: rest.map Prod.fst,
        cache :=
          (match ck with
           | some k =>
             (match jsField data resultKey with
              | some r0 =>
                if truthyO (jsField data errorKey) then cache
                else cacheSet cache k ⟨r0, now + CACHE_TTL_MS⟩
              | none => cache)
           | none => cache),
        retries := r, lastError := le } := by
  have hpair := tryRpcEndpoint_success_endpoint hsucc
  simp only [runEndpoints, if_neg (by omega : ¬e.rateLimitedUntil > now), hpair]

/-- **C1 (counterexample to the claim as stated).**  Pool of `N = 2`
endpoints, the first `k = 1` of them rate-limited (`rateLimitedUntil = 20
> now = 10`), the second healthy and answering successfully: dispatch does
succeed via the second endpoint, but `_meta.retries` is `0`, not `k = 1` —
a skipped endpoint is not counted as a retry (`retries++` runs only in the
`catch` of an attempted endpoint). -/
theorem C1_counterexample :
    let pool : List (Endpoint × FetchOutcome) :=
      [(⟨[], ['A'], 20⟩, .netError []),
       (⟨[], ['B'], 0⟩, .response 200 (.ok (.obj [("result".toList, .num 100)])))]
    let d := dispatch ⟨none, some (.str ("eth_getBalance".toList)), none, none⟩
      pool [] 10
    d.response.meta.map Meta.rpcUsed = some (some ['B']) ∧
    d.response.meta.map Meta.retries = some 0 ∧
    d.response.meta.map Meta.retries ≠ some 1 := by decide

/-- **C1 (amended).**  With the first `k` endpoints currently rate-limited
(`rateLimitedUntil > now`) and the next endpoint eligible and answering
successfully, dispatch succeeds using that first eligible endpoint — but
reports `_meta.retries = 0`, because skipped endpoints are not counted as
retries. -/
theorem C1_amended_skips_not_counted (req : RpcRequest)
    (pre rest : List (Endpoint × FetchOutcome)) (e : Endpoint) (out : FetchOutcome)
    (cache : RpcCache) (now : Nat) (data : Json)
    (hm : truthyO req.method = true)
    (hnohit : freshHit cache (requestCacheKey req) now = none)
    (hpre : ∀ p ∈ pre, now < p.1.rateLimitedUntil)
    (hel : e.rateLimitedUntil ≤ now)
    (hsucc : (tryRpcEndpoint e out now).1 = .success data) :
    (dispatch req (pre ++ (e, out) :: rest) cache now).response.status = 200 ∧
    (dispatch req (pre ++ (e, out) :: rest) cache now).response.meta =
      some ⟨some e.name, 0, false, 0⟩ ∧
    (dispatch req (pre ++ (e, out) :: rest) cache now).response.result =
      jsField data resultKey := by
  rw [dispatch_eq_loop req _ cache now hm hnohit]
  unfold dispatchLoop
  rw [runEndpoints_front_skips now _ _ pre _ cache 0 none hpre,
      runEndpoints_success_head now _ _ e out rest cache 0 none data hel hsucc]
  simp

/-- Witness for the amended C1: two rate-limited endpoints skipped, the
third succeeds, `retries = 0`. -/
theorem C1_amended_witness :
    truthyO (⟨none, some (.str ("eth_getBalance".toList)), none,
      none⟩ : RpcRequest).method = true ∧
    freshHit [] (requestCacheKey
      ⟨none, some (.str ("eth_getBalance".toList)), none, none⟩) 10 = none ∧
    (∀ p ∈ [((⟨[], ['A'], 20⟩ : Endpoint), FetchOutcome.netError []),
            ((⟨[], ['X'], 99⟩ : Endpoint), FetchOutcome.netError [])],
      10 < p.1.rateLimitedUntil) ∧
    (⟨[], ['B'], 0⟩ : Endpoint).rateLimitedUntil ≤ 10 ∧
    (tryRpcEndpoint ⟨[], ['B'], 0⟩
      (.response 200 (.ok (.obj [("result".toList, .num 100)]))) 10).1 =
      .success (.obj [("result".toList, .num 100)]) ∧
    ((dispatch ⟨none, some (.str ("eth_getBalance".toList)), none, none⟩
        ([((⟨[], ['A'], 20⟩ : Endpoint), FetchOutcome.netError []),
          ((⟨[], ['X'], 99⟩ : Endpoint), FetchOutcome.netError [])] ++
         (⟨[], ['B'], 0⟩, .response 200 (.ok (.obj [("result".toList, .num 100)]))) ::
         []) [] 10).response.status = 200 ∧
     (dispatch ⟨none, some (.str ("eth_getBalance".toList)), none, none⟩
        ([((⟨[], ['A'], 20⟩ : Endpoint), FetchOutcome.netError []),
          ((⟨[], ['X'], 99⟩ : Endpoint), FetchOutcome.netError [])] ++
         (⟨[], ['B'], 0⟩, .response 200 (.ok (.obj [("result".toList, .num 100)]))) ::
         []) [] 10).response.meta = some ⟨some ['B'], 0, false, 0⟩ ∧
     (dispatch ⟨none, some (.str ("eth_getBalance".toList)), none, none⟩
        ([((⟨[], ['A'], 20⟩ : Endpoint), FetchOutcome.netError []),
          ((⟨[], ['X'], 99⟩ : Endpoint), FetchOutcome.netError [])] ++
         (⟨[], ['B'], 0⟩, .response 200 (.ok (.obj [("result".toList, .num 100)]))) ::
         []) [] 10).response.result =
       jsField (.obj [("result".toList, .num 100)]) ("result".toList)) :=
  ⟨by decide, by decide, by decide, by decide, by decide,
   C1_amended_skips_not_counted _ _ _ _ _ _ _ _
     (by decide) (by decide) (by decide) (by decide) (by decide)⟩

/-- A successful (2xx) HTTP status with a parsed body that is not a
rate-limit signature resolves the attempt with that body, leaving the
endpoint untouched. -/
theorem tryRpcEndpoint_ok_body (e : Endpoint) (status : Nat) (data : Json) (now : Nat)
    (hok : 200 ≤ status ∧ status ≤ 299)
    (hsig : isRateLimitSignature data = .ok false) :
    tryRpcEndpoint e (.response status (.ok data)) now = (.success data, e) := by
  simp only [tryRpcEndpoint]
  rw [if_neg (by omega), if_neg (not_not_intro hok)]
  simp [hsig]

/-- A prefix whose entries are all skipped or all throw passes through the
loop: the loop continues on the rest with `retries` advanced by the number
of attempted (eligible) entries and `lastError` advanced by their last
failure message, the cache untouched, and each prefix endpoint left in its
after-attempt state. -/
theorem runEndpoints_front_failures (now : Nat) (ck : Option (List Char)) (id : Json)
    (pre rest : List (Endpoint × FetchOutcome)) (cache : RpcCache) (r : Nat)
    (le : Option (List Char))
    (hpre : ∀ p ∈ pre, p.1.rateLimitedUntil ≤ now → tryFails now p = true) :
    runEndpoints now ck id (pre ++ rest) cache r le =
      { runEndpoints now ck id rest cache (r + pre.countP (eligibleAt now))
          (lastFailMsg now pre le) with
        endpoints :=
          pre.map (endpointAfter now) ++
          (runEndpoints now ck id rest cache (r + pre.countP (eligibleAt now))
            (lastFailMsg now pre le)).endpoints } := by
  induction pre generalizing r le with
  | nil => simp [lastFailMsg]
  | cons p tl ih =>
    obtain ⟨pe, pout⟩ := p
    by_cases hp : pe.rateLimitedUntil ≤ now
    · have hf := hpre (pe, pout) (by simp) hp
      cases htry : tryRpcEndpoint pe pout now with
      | mk o e2 =>
        cases o with
        | success data => simp [tryFails, htry] at hf
        | failure msg =>
          simp only [List.cons_append, runEndpoints,
            if_neg (by omega : ¬pe.rateLimitedUntil > now), htry, List.append_eq]
          rw [ih (r + 1) (some msg) (fun q hq h => hpre q (by simp [hq]) h)]
          have hcount : ((pe, pout) :: tl).countP (eligibleAt now) =
              tl.countP (eligibleAt now) + 1 := by
            simp [List.countP_cons, eligibleAt, hp]
          have hlast : lastFailMsg now ((pe, pout) :: tl) le =
              lastFailMsg now tl (some msg) := by
            simp [lastFailMsg, hp, htry]
          have hafter : endpointAfter now (pe, pout) = e2 := by
            simp [endpointAfter, hp, htry]
          rw [hcount, hlast]
          simp only [List.map_cons, hafter]
          have harith : r + 1 + tl.countP (eligibleAt now) =
              r + (tl.countP (eligibleAt now) + 1) := by omega
          rw [harith]
          simp
    · push_neg at hp
      simp only [List.cons_append, runEndpoints, if_pos hp, List.append_eq]
      rw [ih r le (fun q hq h => hpre q (by simp [hq]) h)]
      have hcount : ((pe, pout) :: tl).countP (eligibleAt now) =
          tl.countP (eligibleAt now) := by
        simp [List.countP_cons, eligibleAt]
        omega
      have hlast : lastFailMsg now ((pe, pout) :: tl) le = lastFailMsg now tl le := by
        simp only [lastFailMsg]
        rw [if_neg (by omega)]
      have hafter : endpointAfter now (pe, pout) = pe := by
        simp only [endpointAfter]
        rw [if_neg (by omega)]
      rw [hcount, hlast]
      simp only [List.map_cons, hafter]
      simp

/-- Every success reply the loop builds carries `_meta` with an endpoint
name, `cachedResult = false`, and the retry count at that moment. -/
theorem runEndpoints_success_meta (now : Nat) (ck : Option (List Char)) (id : Json)
    (pool : List (Endpoint × FetchOutcome)) (cache : RpcCache) (r : Nat)
    (le : Option (List Char)) :
    ∀ resp, (runEndpoints now ck id pool cache r le).response = some resp →
      ∃ nm rt, resp.meta = some ⟨some nm, 0, false, rt⟩ := by
  induction pool generalizing cache r le with
  | nil => intro resp h; simp [runEndpoints] at h
  | cons p tl ih =>
    obtain ⟨pe, pout⟩ := p
    intro resp h
    by_cases hp : pe.rateLimitedUntil > now
    · simp only [runEndpoints, if_pos hp] at h
      exact ih cache r le resp h
    · push_neg at hp
      cases htry : tryRpcEndpoint pe pout now with
      | mk o e2 =>
        cases o with
        | success data =>
          have hsucc : (tryRpcEndpoint pe pout now).1 = .success data := by rw [htry]
          rw [runEndpoints_success_head now ck id pe pout tl cache r le data hp hsucc] at h
          simp only [Option.some.injEq] at h
          exact ⟨pe.name, r, by rw [← h]⟩
        | failure msg =>
          simp only [runEndpoints,
            if_neg (by omega : ¬pe.rateLimitedUntil > now), htry] at h
          exact ih cache (r + 1) (some msg) resp h

/-- The loop either leaves the cache alone or performs exactly one
`cacheSet` at the given key, storing the `result` member of a successful
non-error body of one attempted endpoint, with `expiresAt = now + TTL`. -/
theorem runEndpoints_cache_step (now : Nat) (ck : Option (List Char)) (id : Json)
    (pool : List (Endpoint × FetchOutcome)) (cache : RpcCache) (r : Nat)
    (le : Option (List Char)) :
    (runEndpoints now ck id pool cache r le).cache = cache ∨
    (∃ k r0 data,
      ck = some k ∧
      (∃ p ∈ pool, p.1.rateLimitedUntil ≤ now ∧
        (tryRpcEndpoint p.1 p.2 now).1 = .success data) ∧
      jsField data resultKey = some r0 ∧
      truthyO (jsField data errorKey) = false ∧
      (runEndpoints now ck id pool cache r le).cache =
        cacheSet cache k ⟨r0, now + CACHE_TTL_MS⟩) := by
  induction pool generalizing r le with
  | nil => left; simp [runEndpoints]
  | cons p tl ih =>
    obtain ⟨pe, pout⟩ := p
    by_cases hp : pe.rateLimitedUntil > now
    · simp only [runEndpoints, if_pos hp]
      rcases ih r le with h | ⟨k, r0, data, hck, ⟨q, hq, hqel, hqs⟩, h1, h2, h3⟩
      · left; exact h
      · right; exact ⟨k, r0, data, hck, ⟨q, by simp [hq], hqel, hqs⟩, h1, h2, h3⟩
    · push_neg at hp
      cases htry : tryRpcEndpoint pe pout now with
      | mk o e2 =>
        cases o with
        | failure msg =>
          simp only [runEndpoints,
            if_neg (by omega : ¬pe.rateLimitedUntil > now), htry]
          rcases ih (r + 1) (some msg) with h | ⟨k, r0, data, hck, ⟨q, hq, hqel, hqs⟩, h1, h2, h3⟩
          · left; exact h
          · right; exact ⟨k, r0, data, hck, ⟨q, by simp [hq], hqel, hqs⟩, h1, h2, h3⟩
        | success data =>
          have hsucc : (tryRpcEndpoint pe pout now).1 = .success data := by rw [htry]
          rw [runEndpoints_success_head now ck id pe pout tl cache r le data hp hsucc]
          cases hck : ck with
          | none => left; rfl
          | some k =>
            cases hres : jsField data resultKey with
            | none => left; simp [hres]
            | some r0 =>
              cases herr : truthyO (jsField data errorKey) with
              | true => left; simp [hres, herr]
              | false =>
                right
                exact ⟨k, r0, data, rfl,
                  ⟨(pe, pout), by simp, hp, hsucc⟩, hres, herr,
                  by simp [hres, herr]⟩

/-- Unfolding of `dispatch` on a falsy `method`. -/
theorem dispatch_invalid_eq (req : RpcRequest) (pool : List (Endpoint × FetchOutcome))
    (cache : RpcCache) (now : Nat) (hm : truthyO req.method = false) :
    dispatch req pool cache now =
      { response := invalidReqResponse (req.id.getD (.num 1)),
        endpoints := pool.map Prod.fst, cache := cache } := by
  unfold dispatch
  simp [hm]

/-- Unfolding of `dispatch` on a fresh cache hit. -/
theorem dispatch_hit_eq (req : RpcRequest) (pool : List (Endpoint × FetchOutcome))
    (cache : RpcCache) (now : Nat) (k : List Char) (entry : CacheEntry)
    (hm : truthyO req.method = true) (hkey : requestCacheKey req = some k)
    (hget : cacheGet cache k = some entry) (hfresh : entry.expiresAt > now) :
    dispatch req pool cache now =
      { response := cacheHitResponse (req.id.getD (.num 1)) entry,
        endpoints := pool.map Prod.fst, cache := cache } := by
  unfold requestCacheKey at hkey
  unfold dispatch
  rw [hm]
  simp only [Bool.true_eq_false, if_false, hkey, hget, if_pos hfresh]

/-- Unfolding of `dispatch` on a stale cache entry: the loop runs with the
cache passed through unchanged (the stale entry is not deleted on the
miss). -/
theorem dispatch_stale_eq (req : RpcRequest) (pool : List (Endpoint × FetchOutcome))
    (cache : RpcCache) (now : Nat) (k : List Char) (entry : CacheEntry)
    (hm : truthyO req.method = true) (hkey : requestCacheKey req = some k)
    (hget : cacheGet cache k = some entry) (hstale : entry.expiresAt ≤ now) :
    dispatch req pool cache now =
      dispatchLoop (req.id.getD (.num 1)) (some k) pool cache now := by
  unfold requestCacheKey at hkey
  unfold dispatch
  rw [hm]
  simp only [Bool.true_eq_false, if_false, hkey, hget,
    if_neg (by omega : ¬entry.expiresAt > now)]

/-- Unfolding of `dispatch` on a cacheable method with no entry at its
key. -/
theorem dispatch_miss_eq (req : RpcRequest) (pool : List (Endpoint × FetchOutcome))
    (cache : RpcCache) (now : Nat) (k : List Char)
    (hm : truthyO req.method = true) (hkey : requestCacheKey req = some k)
    (hget : cacheGet cache k = none) :
    dispatch req pool cache now =
      dispatchLoop (req.id.getD (.num 1)) (some k) pool cache now := by
  unfold requestCacheKey at hkey
  unfold dispatch
  rw [hm]
  simp only [Bool.true_eq_false, if_false, hkey, hget]

/-- Unfolding of `dispatch` on a non-cacheable method: the loop runs with
no cache key at all. -/
theorem dispatch_nokey_eq (req : RpcRequest) (pool : List (Endpoint × FetchOutcome))
    (cache : RpcCache) (now : Nat)
    (hm : truthyO req.method = true) (hkey : requestCacheKey req = none) :
    dispatch req pool cache now =
      dispatchLoop (req.id.getD (.num 1)) none pool cache now := by
  unfold requestCacheKey at hkey
  unfold dispatch
  rw [hm]
  simp only [Bool.true_eq_false, if_false, hkey]

/-- The loop phase never touches the cache except through the loop
itself. -/
theorem dispatchLoop_cache_eq (id : Json) (ck : Option (List Char))
    (pool : List (Endpoint × FetchOutcome)) (cache : RpcCache) (now : Nat) :
    (dispatchLoop id ck pool cache now).cache =
      (runEndpoints now ck id pool cache 0 none).cache := by
  unfold dispatchLoop
  cases hr : (runEndpoints now ck id pool cache 0 none).response <;> simp [hr]

/-- No reply built by the loop phase (success or total failure) claims
`cachedResult = true`. -/
theorem dispatchLoop_meta_not_cached (id : Json) (ck : Option (List Char))
    (pool : List (Endpoint × FetchOutcome)) (cache : RpcCache) (now : Nat) :
    ∀ m, (dispatchLoop id ck pool cache now).response.meta = some m →
      m.cachedResult = false := by
  intro m hm
  unfold dispatchLoop at hm
  cases hr : (runEndpoints now ck id pool cache 0 none).response with
  | some resp =>
    simp only [hr] at hm
    obtain ⟨nm, rt, hmeta⟩ := runEndpoints_success_meta now ck id pool cache 0 none resp hr
    rw [hmeta] at hm
    simp only [Option.some.injEq] at hm
    rw [← hm]
  | none =>
    simp only [hr, allFailedResponse, Option.some.injEq] at hm
    rw [← hm]

/-- **C2.**  An attempted endpoint that answers a successful (2xx) HTTP
status with a parsed body that is not a rate-limit signature ends the
dispatch: that body's `result` and `error` members are returned verbatim
(a legitimate JSON-RPC error included), `_meta.retries` is the number of
attempts failed so far (`0` when it was the first endpoint), no later
endpoint of the pool is touched, and when the body carries no `result`
member nothing is written to the cache, whitelisted method or not. -/
theorem C2_upstream_error_is_final (req : RpcRequest)
    (pre rest : List (Endpoint × FetchOutcome)) (e : Endpoint)
    (cache : RpcCache) (now : Nat) (status : Nat) (data : Json)
    (hm : truthyO req.method = true)
    (hnohit : freshHit cache (requestCacheKey req) now = none)
    (hpre : ∀ p ∈ pre, p.1.rateLimitedUntil ≤ now → tryFails now p = true)
    (hel : e.rateLimitedUntil ≤ now)
    (hok : 200 ≤ status ∧ status ≤ 299)
    (hsig : isRateLimitSignature data = .ok false) :
    (dispatch req (pre ++ (e, .response status (.ok data)) :: rest) cache now).response =
      { status := 200, id := req.id.getD (.num 1),
        result := jsField data resultKey,
        error := jsField data errorKey,
        meta := some ⟨some e.name, 0, false, pre.countP (eligibleAt now)⟩ } ∧
    (pre = [] →
      (dispatch req (pre ++ (e, .response status (.ok data)) :: rest) cache now).response.meta
        = some ⟨some e.name, 0, false, 0⟩) ∧
    (dispatch req (pre ++ (e, .response status (.ok data)) :: rest) cache now).endpoints =
      pre.map (endpointAfter now) ++ e :: rest.map Prod.fst ∧
    (jsField data resultKey = none →
      (dispatch req (pre ++ (e, .response status (.ok data)) :: rest) cache now).cache
        = cache) := by
  have hsucc : (tryRpcEndpoint e (.response status (.ok data)) now).1 = .success data := by
    rw [tryRpcEndpoint_ok_body e status data now hok hsig]
  rw [dispatch_eq_loop req _ cache now hm hnohit]
  unfold dispatchLoop
  rw [runEndpoints_front_failures now _ _ pre _ cache 0 none hpre,
      runEndpoints_success_head now _ _ e _ rest cache _ _ data hel hsucc]
  refine ⟨by simp, ?_, by simp, ?_⟩
  · rintro rfl
    simp
  · intro hres
    cases requestCacheKey req <;> simp [hres]

/-- Witness for C2: first endpoint of the pool answers 200 with a
`method not found` JSON-RPC error body on a whitelisted cacheable method;
the error is final, `retries = 0`, the cache stays empty. -/
theorem C2_witness :
    truthyO (⟨none, some (.str ("eth_blockNumber".toList)), none,
      none⟩ : RpcRequest).method = true ∧
    freshHit [] (requestCacheKey
      ⟨none, some (.str ("eth_blockNumber".toList)), none, none⟩) 10 = none ∧
    (∀ p ∈ ([] : List (Endpoint × FetchOutcome)),
      p.1.rateLimitedUntil ≤ 10 → tryFails 10 p = true) ∧
    (⟨[], ['B'], 0⟩ : Endpoint).rateLimitedUntil ≤ 10 ∧
    (200 ≤ 200 ∧ 200 ≤ 299) ∧
    isRateLimitSignature (.obj [("error".toList,
      .obj [("code".toList, .num (-32601)),
            ("message".toList, .str ("method not found".toList))])]) = .ok false ∧
    ((dispatch ⟨none, some (.str ("eth_blockNumber".toList)), none, none⟩
        ([] ++ ((⟨[], ['B'], 0⟩ : Endpoint), FetchOutcome.response 200
          (.ok (.obj [("error".toList,
            .obj [("code".toList, .num (-32601)),
                  ("message".toList, .str ("method not found".toList))])]))) :: [])
        [] 10).response =
      { status := 200, id := (none : Option Json).getD (.num 1),
        result := jsField (.obj [("error".toList,
          .obj [("code".toList, .num (-32601)),
                ("message".toList, .str ("method not found".toList))])]) ("result".toList),
        error := jsField (.obj [("error".toList,
          .obj [("code".toList, .num (-32601)),
                ("message".toList, .str ("method not found".toList))])]) ("error".toList),
        meta := some ⟨some ['B'], 0, false,
          ([] : List (Endpoint × FetchOutcome)).countP (eligibleAt 10)⟩ } ∧
     (([] : List (Endpoint × FetchOutcome)) = [] →
       (dispatch ⟨none, some (.str ("eth_blockNumber".toList)), none, none⟩
        ([] ++ ((⟨[], ['B'], 0⟩ : Endpoint), FetchOutcome.response 200
          (.ok (.obj [("error".toList,
            .obj [("code".toList, .num (-32601)),
                  ("message".toList, .str ("method not found".toList))])]))) :: [])
        [] 10).response.meta = some ⟨some ['B'], 0, false, 0⟩) ∧
     (dispatch ⟨none, some (.str ("eth_blockNumber".toList)), none, none⟩
        ([] ++ ((⟨[], ['B'], 0⟩ : Endpoint), FetchOutcome.response 200
          (.ok (.obj [("error".toList,
            .obj [("code".toList, .num (-32601)),
                  ("message".toList, .str ("method not found".toList))])]))) :: [])
        [] 10).endpoints =
       ([] : List (Endpoint × FetchOutcome)).map (endpointAfter 10) ++
         (⟨[], ['B'], 0⟩ : Endpoint) :: ([] : List (Endpoint × FetchOutcome)).map Prod.fst ∧
     (jsField (.obj [("error".toList,
          .obj [("code".toList, .num (-32601)),
                ("message".toList, .str ("method not found".toList))])]) ("result".toList)
          = none →
       (dispatch ⟨none, some (.str ("eth_blockNumber".toList)), none, none⟩
        ([] ++ ((⟨[], ['B'], 0⟩ : Endpoint), FetchOutcome.response 200
          (.ok (.obj [("error".toList,
            .obj [("code".toList, .num (-32601)),
                  ("message".toList, .str ("method not found".toList))])]))) :: [])
        [] 10).cache = [])) :=
  ⟨by decide, by decide, by decide, by decide, by decide, by decide,
   C2_upstream_error_is_final _ _ _ _ _ _ _ _
     (by decide) (by decide) (by decide) (by decide) (by decide) (by decide)⟩

/-- **C3.**  When every endpoint is skipped or every attempted endpoint
throws, dispatch answers HTTP 503 with the fixed `-32603` "All RPC
endpoints unavailable" envelope whose `data` carries the last observed
error message, the count of attempted endpoints, and the retry
suggestion, and whose `_meta.rpcUsed` is `null`; when additionally every
endpoint was eligible (e.g. all `N` answered a throttling signal),
`_meta.retries = N`. -/
theorem C3_total_failure (req : RpcRequest) (pool : List (Endpoint × FetchOutcome))
    (cache : RpcCache) (now : Nat)
    (hm : truthyO req.method = true)
    (hnohit : freshHit cache (requestCacheKey req) now = none)
    (hfail : ∀ p ∈ pool, p.1.rateLimitedUntil ≤ now → tryFails now p = true) :
    (dispatch req pool cache now).response.status = 503 ∧
    (dispatch req pool cache now).response.error =
      some (allFailedError (lastFailMsg now pool none)
        (pool.countP (eligibleAt now))) ∧
    (dispatch req pool cache now).response.meta =
      some ⟨none, 0, false, pool.countP (eligibleAt now)⟩ ∧
    (dispatch req pool cache now).response.result = none ∧
    ((∀ p ∈ pool, p.1.rateLimitedUntil ≤ now) →
      (dispatch req pool cache now).response.meta.map Meta.retries =
        some pool.length) := by
  have hall_fail : runEndpoints now (requestCacheKey req) (req.id.getD (.num 1))
      pool cache 0 none =
      { response := none, endpoints := pool.map (endpointAfter now), cache := cache,
        retries := 0 + pool.countP (eligibleAt now),
        lastError := lastFailMsg now pool none } := by
    have h := runEndpoints_front_failures now (requestCacheKey req)
      (req.id.getD (.num 1)) pool [] cache 0 none hfail
    simpa [runEndpoints] using h
  rw [dispatch_eq_loop req pool cache now hm hnohit]
  unfold dispatchLoop
  rw [hall_fail]
  simp only [allFailedResponse, Nat.zero_add]
  refine ⟨by simp, by simp, by simp, by simp, ?_⟩
  intro hall
  have : pool.countP (eligibleAt now) = pool.length :=
    List.countP_eq_length.mpr fun p hp => by
      simp [eligibleAt, hall p hp]
  simp [this]

/-- Witness for C3: both endpoints eligible, both throttled (HTTP 429 and
a `-32005` body), `retries = 2`, `rpcUsed = null`. -/
theorem C3_witness :
    truthyO (⟨none, some (.str ("eth_getBalance".toList)), none,
      none⟩ : RpcRequest).method = true ∧
    freshHit [] (requestCacheKey
      ⟨none, some (.str ("eth_getBalance".toList)), none, none⟩) 10 = none ∧
    (∀ p ∈ [((⟨[], ['A'], 0⟩ : Endpoint), FetchOutcome.response 429 (.error [])),
            ((⟨[], ['B'], 0⟩ : Endpoint), FetchOutcome.response 200
              (.ok (.obj [("error".toList, .obj [("code".toList, .num (-32005))])])))],
      p.1.rateLimitedUntil ≤ 10 → tryFails 10 p = true) ∧
    ((dispatch ⟨none, some (.str ("eth_getBalance".toList)), none, none⟩
        [((⟨[], ['A'], 0⟩ : Endpoint), FetchOutcome.response 429 (.error [])),
         ((⟨[], ['B'], 0⟩ : Endpoint), FetchOutcome.response 200
           (.ok (.obj [("error".toList, .obj [("code".toList, .num (-32005))])])))]
        [] 10).response.status = 503 ∧
     (dispatch ⟨none, some (.str ("eth_getBalance".toList)), none, none⟩
        [((⟨[], ['A'], 0⟩ : Endpoint), FetchOutcome.response 429 (.error [])),
         ((⟨[], ['B'], 0⟩ : Endpoint), FetchOutcome.response 200
           (.ok (.obj [("error".toList, .obj [("code".toList, .num (-32005))])])))]
        [] 10).response.error =
       some (allFailedError (lastFailMsg 10
         [((⟨[], ['A'], 0⟩ : Endpoint), FetchOutcome.response 429 (.error [])),
          ((⟨[], ['B'], 0⟩ : Endpoint), FetchOutcome.response 200
            (.ok (.obj [("error".toList, .obj [("code".toList, .num (-32005))])])))] none)
         ([((⟨[], ['A'], 0⟩ : Endpoint), FetchOutcome.response 429 (.error [])),
           ((⟨[], ['B'], 0⟩ : Endpoint), FetchOutcome.response 200
             (.ok (.obj [("error".toList, .obj [("code".toList, .num (-32005))])])))].countP
           (eligibleAt 10))) ∧
     (dispatch ⟨none, some (.str ("eth_getBalance".toList)), none, none⟩
        [((⟨[], ['A'], 0⟩ : Endpoint), FetchOutcome.response 429 (.error [])),
         ((⟨[], ['B'], 0⟩ : Endpoint), FetchOutcome.response 200
           (.ok (.obj [("error".toList, .obj [("code".toList, .num (-32005))])])))]
        [] 10).response.meta =
       some ⟨none, 0, false,
         [((⟨[], ['A'], 0⟩ : Endpoint), FetchOutcome.response 429 (.error [])),
          ((⟨[], ['B'], 0⟩ : Endpoint), FetchOutcome.response 200
            (.ok (.obj [("error".toList, .obj [("code".toList, .num (-32005))])])))].countP
           (eligibleAt 10)⟩ ∧
     (dispatch ⟨none, some (.str ("eth_getBalance".toList)), none, none⟩
        [((⟨[], ['A'], 0⟩ : Endpoint), FetchOutcome.response 429 (.error [])),
         ((⟨[], ['B'], 0⟩ : Endpoint), FetchOutcome.response 200
           (.ok (.obj [("error".toList, .obj [("code".toList, .num (-32005))])])))]
        [] 10).response.result = none ∧
     ((∀ p ∈ [((⟨[], ['A'], 0⟩ : Endpoint), FetchOutcome.response 429 (.error [])),
              ((⟨[], ['B'], 0⟩ : Endpoint), FetchOutcome.response 200
                (.ok (.obj [("error".toList, .obj [("code".toList, .num (-32005))])])))],
        p.1.rateLimitedUntil ≤ 10) →
       (dispatch ⟨none, some (.str ("eth_getBalance".toList)), none, none⟩
        [((⟨[], ['A'], 0⟩ : Endpoint), FetchOutcome.response 429 (.error [])),
         ((⟨[], ['B'], 0⟩ : Endpoint), FetchOutcome.response 200
           (.ok (.obj [("error".toList, .obj [("code".toList, .num (-32005))])])))]
        [] 10).response.meta.map Meta.retries =
        some [((⟨[], ['A'], 0⟩ : Endpoint), FetchOutcome.response 429 (.error [])),
              ((⟨[], ['B'], 0⟩ : Endpoint), FetchOutcome.response 200
                (.ok (.obj [("error".toList, .obj [("code".toList, .num (-32005))])])))].length)) :=
  ⟨by decide, by decide, by decide,
   C3_total_failure _ _ _ _ (by decide) (by decide) (by decide)⟩

/-- **C7.**  For a cacheable method whose key holds an entry with
`now < expiresAt`, dispatch returns the stored result at once —
`cachedResult = true`, `rpcUsed = "cache"`, `retries = 0` — touching
neither the pool nor the cache; an expired entry or an absent one is a
miss: the loop runs, with the cache handed over unchanged (the stale entry
is not deleted by the miss). -/
theorem C7_cache_hit_and_expiry (req : RpcRequest)
    (pool : List (Endpoint × FetchOutcome)) (cache : RpcCache) (now : Nat)
    (k : List Char) (entry : CacheEntry)
    (hm : truthyO req.method = true)
    (hkey : requestCacheKey req = some k) :
    (cacheGet cache k = some entry → now < entry.expiresAt →
      dispatch req pool cache now =
        { response := cacheHitResponse (req.id.getD (.num 1)) entry,
          endpoints := pool.map Prod.fst, cache := cache } ∧
      (dispatch req pool cache now).response.result = some entry.result ∧
      (dispatch req pool cache now).response.meta =
        some ⟨some ("cache".toList), 0, true, 0⟩) ∧
    (cacheGet cache k = some entry → entry.expiresAt ≤ now →
      dispatch req pool cache now =
        dispatchLoop (req.id.getD (.num 1)) (some k) pool cache now) ∧
    (cacheGet cache k = none →
      dispatch req pool cache now =
        dispatchLoop (req.id.getD (.num 1)) (some k) pool cache now) := by
  refine ⟨?_, ?_, ?_⟩
  · intro hget hfresh
    have hd := dispatch_hit_eq req pool cache now k entry hm hkey hget (by omega)
    exact ⟨hd, by rw [hd]; rfl, by rw [hd]; rfl⟩
  · intro hget hstale
    exact dispatch_stale_eq req pool cache now k entry hm hkey hget hstale
  · intro hget
    exact dispatch_miss_eq req pool cache now k hm hkey hget

/-- Witness for C7: a fresh `eth_chainId` entry is served from the cache
with `retries = 0` and no endpoint contact. -/
theorem C7_witness :
    truthyO (⟨none, some (.str ("eth_chainId".toList)), none,
      none⟩ : RpcRequest).method = true ∧
    requestCacheKey ⟨none, some (.str ("eth_chainId".toList)), none, none⟩ =
      some ("eth_chainId:[]".toList) ∧
    ((cacheGet [("eth_chainId:[]".toList, ⟨.str ("0x2105".toList), 50⟩)]
        ("eth_chainId:[]".toList) = some ⟨.str ("0x2105".toList), 50⟩ →
      10 < (⟨.str ("0x2105".toList), 50⟩ : CacheEntry).expiresAt →
      dispatch ⟨none, some (.str ("eth_chainId".toList)), none, none⟩
          [((⟨[], ['B'], 0⟩ : Endpoint), FetchOutcome.netError [])]
          [("eth_chainId:[]".toList, ⟨.str ("0x2105".toList), 50⟩)] 10 =
        { response := cacheHitResponse ((none : Option Json).getD (.num 1))
            ⟨.str ("0x2105".toList), 50⟩,
          endpoints := [((⟨[], ['B'], 0⟩ : Endpoint),
            FetchOutcome.netError [])].map Prod.fst,
          cache := [("eth_chainId:[]".toList, ⟨.str ("0x2105".toList), 50⟩)] } ∧
      (dispatch ⟨none, some (.str ("eth_chainId".toList)), none, none⟩
          [((⟨[], ['B'], 0⟩ : Endpoint), FetchOutcome.netError [])]
          [("eth_chainId:[]".toList, ⟨.str ("0x2105".toList), 50⟩)] 10).response.result =
        some (.str ("0x2105".toList)) ∧
      (dispatch ⟨none, some (.str ("eth_chainId".toList)), none, none⟩
          [((⟨[], ['B'], 0⟩ : Endpoint), FetchOutcome.netError [])]
          [("eth_chainId:[]".toList, ⟨.str ("0x2105".toList), 50⟩)] 10).response.meta =
        some ⟨some ("cache".toList), 0, true, 0⟩) ∧
     (cacheGet [("eth_chainId:[]".toList, ⟨.str ("0x2105".toList), 50⟩)]
        ("eth_chainId:[]".toList) = some ⟨.str ("0x2105".toList), 50⟩ →
      (⟨.str ("0x2105".toList), 50⟩ : CacheEntry).expiresAt ≤ 10 →
      dispatch ⟨none, some (.str ("eth_chainId".toList)), none, none⟩
          [((⟨[], ['B'], 0⟩ : Endpoint), FetchOutcome.netError [])]
          [("eth_chainId:[]".toList, ⟨.str ("0x2105".toList), 50⟩)] 10 =
        dispatchLoop ((none : Option Json).getD (.num 1)) (some ("eth_chainId:[]".toList))
          [((⟨[], ['B'], 0⟩ : Endpoint), FetchOutcome.netError [])]
          [("eth_chainId:[]".toList, ⟨.str ("0x2105".toList), 50⟩)] 10) ∧
     (cacheGet [("eth_chainId:[]".toList, ⟨.str ("0x2105".toList), 50⟩)]
        ("eth_chainId:[]".toList) = none →
      dispatch ⟨none, some (.str ("eth_chainId".toList)), none, none⟩
          [((⟨[], ['B'], 0⟩ : Endpoint), FetchOutcome.netError [])]
          [("eth_chainId:[]".toList, ⟨.str ("0x2105".toList), 50⟩)] 10 =
        dispatchLoop ((none : Option Json).getD (.num 1)) (some ("eth_chainId:[]".toList))
          [((⟨[], ['B'], 0⟩ : Endpoint), FetchOutcome.netError [])]
          [("eth_chainId:[]".toList, ⟨.str ("0x2105".toList), 50⟩)] 10)) :=
  ⟨by decide, by decide,
   C7_cache_hit_and_expiry _ _ _ _ _ _ (by decide) (by decide)⟩

/-- **C8.**  A (non-empty) method outside the whitelist never engages the
cache: `getCacheKey` yields no key, the loop runs with none (so repeated
identical calls always go upstream), the cache is bit-for-bit unchanged,
and every `_meta` ever returned says `cachedResult = false`. -/
theorem C8_uncacheable_skips_cache (req : RpcRequest)
    (pool : List (Endpoint × FetchOutcome)) (cache : RpcCache) (now : Nat)
    (s : List Char)
    (hmeth : req.method = some (.str s))
    (hnc : s ∉ cacheableMethods)
    (hne : s ≠ []) :
    dispatch req pool cache now =
      dispatchLoop (req.id.getD (.num 1)) none pool cache now ∧
    (dispatch req pool cache now).cache = cache ∧
    (∀ m, (dispatch req pool cache now).response.meta = some m →
      m.cachedResult = false) := by
  have hm : truthyO req.method = true := by
    rw [hmeth]
    simp [truthyO, truthy, hne]
  have hkey : requestCacheKey req = none := by
    unfold requestCacheKey getCacheKey
    rw [hmeth]
    simp [hnc]
  have hd := dispatch_nokey_eq req pool cache now hm hkey
  refine ⟨hd, ?_, ?_⟩
  · rw [hd, dispatchLoop_cache_eq]
    rcases runEndpoints_cache_step now none (req.id.getD (.num 1)) pool cache 0 none with
      h | ⟨k, _, _, hck, _⟩
    · exact h
    · exact absurd hck (by simp)
  · rw [hd]
    exact dispatchLoop_meta_not_cached _ _ _ _ _

/-- Witness for C8: `eth_getBalance` (not whitelisted) with a successful
upstream answer; the cache stays empty and `cachedResult = false`. -/
theorem C8_witness :
    (⟨none, some (.str ("eth_getBalance".toList)), none,
      none⟩ : RpcRequest).method = some (.str ("eth_getBalance".toList)) ∧
    ("eth_getBalance".toList) ∉ cacheableMethods ∧
    ("eth_getBalance".toList) ≠ ([] : List Char) ∧
    (dispatch ⟨none, some (.str ("eth_getBalance".toList)), none, none⟩
        [((⟨[], ['B'], 0⟩ : Endpoint),
          FetchOutcome.response 200 (.ok (.obj [(resultKey, .num 100)])))] [] 10 =
      dispatchLoop ((none : Option Json).getD (.num 1)) none
        [((⟨[], ['B'], 0⟩ : Endpoint),
          FetchOutcome.response 200 (.ok (.obj [(resultKey, .num 100)])))] [] 10 ∧
     (dispatch ⟨none, some (.str ("eth_getBalance".toList)), none, none⟩
        [((⟨[], ['B'], 0⟩ : Endpoint),
          FetchOutcome.response 200 (.ok (.obj [(resultKey, .num 100)])))] [] 10).cache
       = [] ∧
     (∀ m, (dispatch ⟨none, some (.str ("eth_getBalance".toList)), none, none⟩
        [((⟨[], ['B'], 0⟩ : Endpoint),
          FetchOutcome.response 200 (.ok (.obj [(resultKey, .num 100)])))] [] 10
          ).response.meta = some m →
       m.cachedResult = false)) :=
  ⟨rfl, by decide, by decide,
   C8_uncacheable_skips_cache _ _ _ _ _ rfl (by decide) (by decide)⟩

/-- **C10.**  Cache soundness of one dispatch step: the cache is either
left untouched or extended/overwritten by exactly one entry, whose key is
the request's whitelisted cache key, whose value is the `result` member of
a successful, non-error upstream body produced by an attempted endpoint of
this dispatch, and whose `expiresAt` is the write instant plus the fixed
TTL; and any reply claiming `cachedResult = true` carries a `result`
member and no `error` member. -/
theorem C10_cache_soundness (req : RpcRequest)
    (pool : List (Endpoint × FetchOutcome)) (cache : RpcCache) (now : Nat) :
    ((dispatch req pool cache now).cache = cache ∨
      (∃ k r0 data,
        requestCacheKey req = some k ∧
        (∃ p ∈ pool, p.1.rateLimitedUntil ≤ now ∧
          (tryRpcEndpoint p.1 p.2 now).1 = .success data) ∧
        jsField data resultKey = some r0 ∧
        truthyO (jsField data errorKey) = false ∧
        (dispatch req pool cache now).cache =
          cacheSet cache k ⟨r0, now + CACHE_TTL_MS⟩)) ∧
    (∀ m, (dispatch req pool cache now).response.meta = some m →
      m.cachedResult = true →
      (∃ v, (dispatch req pool cache now).response.result = some v) ∧
      (dispatch req pool cache now).response.error = none) := by
  by_cases hm : truthyO req.method = true
  · have hopt : requestCacheKey req = none ∨ ∃ k, requestCacheKey req = some k := by
      cases requestCacheKey req
      · exact Or.inl rfl
      · exact Or.inr ⟨_, rfl⟩
    rcases hopt with hkey | ⟨k, hkey⟩
    · have hd := dispatch_nokey_eq req pool cache now hm hkey
      constructor
      · left
        rw [hd, dispatchLoop_cache_eq]
        rcases runEndpoints_cache_step now none (req.id.getD (.num 1)) pool cache 0 none with
          h | ⟨k, _, _, hck, _⟩
        · exact h
        · exact absurd hck (by simp)
      · intro m hmeta htrue
        rw [hd] at hmeta
        exact absurd htrue (by simp [dispatchLoop_meta_not_cached _ _ _ _ _ m hmeta])
    ·
      have hloop : dispatch req pool cache now =
          dispatchLoop (req.id.getD (.num 1)) (some k) pool cache now →
          ((dispatch req pool cache now).cache = cache ∨
            (∃ k' r0 data,
              requestCacheKey req = some k' ∧
              (∃ p ∈ pool, p.1.rateLimitedUntil ≤ now ∧
                (tryRpcEndpoint p.1 p.2 now).1 = .success data) ∧
              jsField data resultKey = some r0 ∧
              truthyO (jsField data errorKey) = false ∧
              (dispatch req pool cache now).cache =
                cacheSet cache k' ⟨r0, now + CACHE_TTL_MS⟩)) ∧
          (∀ m, (dispatch req pool cache now).response.meta = some m →
            m.cachedResult = true →
            (∃ v, (dispatch req pool cache now).response.result = some v) ∧
            (dispatch req pool cache now).response.error = none) := by
        intro hd
        constructor
        · rw [hd, dispatchLoop_cache_eq]
          rcases runEndpoints_cache_step now (some k) (req.id.getD (.num 1))
            pool cache 0 none with h | ⟨k', r0, data, hck, hfrom, h1, h2, h3⟩
          · left; exact h
          · right
            exact ⟨k', r0, data, hkey.trans hck, hfrom, h1, h2, h3⟩
        · intro m hmeta htrue
          rw [hd] at hmeta
          exact absurd htrue (by simp [dispatchLoop_meta_not_cached _ _ _ _ _ m hmeta])
      cases hget : cacheGet cache k with
      | none => exact hloop (dispatch_miss_eq req pool cache now k hm hkey hget)
      | some entry =>
        by_cases hfresh : entry.expiresAt > now
        · have hd := dispatch_hit_eq req pool cache now k entry hm hkey hget hfresh
          constructor
          · left; rw [hd]
          · intro m hmeta _
            rw [hd]
            exact ⟨⟨entry.result, rfl⟩, rfl⟩
        · exact hloop (dispatch_stale_eq req pool cache now k entry hm hkey hget
            (by omega))
  · have hd := dispatch_invalid_eq req pool cache now (by simpa using hm)
    constructor
    · left; rw [hd]
    · intro m hmeta
      rw [hd] at hmeta
      simp [invalidReqResponse] at hmeta

/-- Witness for C10 (the theorem has no hypotheses; this instantiates it
at a dispatch that does write the cache). -/
theorem C10_witness :
    ((dispatch ⟨none, some (.str ("eth_blockNumber".toList)), none, none⟩
        [((⟨[], ['B'], 0⟩ : Endpoint),
          FetchOutcome.response 200 (.ok (.obj [(resultKey, .num 100)])))] [] 10).cache
        = [] ∨
      (∃ k r0 data,
        requestCacheKey ⟨none, some (.str ("eth_blockNumber".toList)), none, none⟩ =
          some k ∧
        (∃ p ∈ [((⟨[], ['B'], 0⟩ : Endpoint),
            FetchOutcome.response 200 (.ok (.obj [(resultKey, .num 100)])))],
          p.1.rateLimitedUntil ≤ 10 ∧
          (tryRpcEndpoint p.1 p.2 10).1 = .success data) ∧
        jsField data resultKey = some r0 ∧
        truthyO (jsField data errorKey) = false ∧
        (dispatch ⟨none, some (.str ("eth_blockNumber".toList)), none, none⟩
          [((⟨[], ['B'], 0⟩ : Endpoint),
            FetchOutcome.response 200 (.ok (.obj [(resultKey, .num 100)])))] [] 10).cache =
          cacheSet [] k ⟨r0, 10 + CACHE_TTL_MS⟩)) ∧
    (∀ m, (dispatch ⟨none, some (.str ("eth_blockNumber".toList)), none, none⟩
        [((⟨[], ['B'], 0⟩ : Endpoint),
          FetchOutcome.response 200 (.ok (.obj [(resultKey, .num 100)])))] [] 10
        ).response.meta = some m →
      m.cachedResult = true →
      (∃ v, (dispatch ⟨none, some (.str ("eth_blockNumber".toList)), none, none⟩
          [((⟨[], ['B'], 0⟩ : Endpoint),
            FetchOutcome.response 200 (.ok (.obj [(resultKey, .num 100)])))] [] 10
          ).response.result = some v) ∧
      (dispatch ⟨none, some (.str ("eth_blockNumber".toList)), none, none⟩
          [((⟨[], ['B'], 0⟩ : Endpoint),
            FetchOutcome.response 200 (.ok (.obj [(resultKey, .num 100)])))] [] 10
          ).response.error = none) :=
  C10_cache_soundness _ _ _ _

/-! ## Injectivity of the serialized cache key (towards C4)

`getCacheKey` builds `` `${method}:${JSON.stringify(params || [])}` ``; the
claim needs the whole key to separate any two distinct calls.  The proofs
below establish that `stringify` is injective, by showing the stronger
statement that a serialized value determines itself and its continuation,
provided the continuation cannot be mistaken for more digits of a
number. -/

/-- `Char.toNat` determines the character. -/
theorem char_toNat_inj {c d : Char} (h : c.toNat = d.toNat) : c = d :=
  Char.ext (UInt32.ext h)

/-- Code of a digit character. -/
theorem digitCh_toNat {n : Nat} (h : n < 10) : (digitCh n).toNat = 48 + n := by
  interval_cases n <;> decide

/-- Digit characters are digits. -/
theorem digitCh_isDigit {n : Nat} (h : n < 10) : isDigitCh (digitCh n) := by
  unfold isDigitCh
  rw [digitCh_toNat h]
  omega

/-- With enough fuel, every character `natCharsAux` emits is a digit. -/
theorem natCharsAux_digits :
    ∀ fuel n, n < fuel → ∀ c ∈ natCharsAux fuel n, isDigitCh c := by
  intro fuel
  induction fuel with
  | zero => intro n h; omega
  | succ f ih =>
    intro n h c hc
    simp only [natCharsAux] at hc
    split at hc
    · next h10 =>
      simp only [List.mem_singleton] at hc
      subst hc
      exact digitCh_isDigit h10
    · next h10 =>
      rw [List.mem_append] at hc
      rcases hc with hc | hc
      · exact ih (n / 10) (by omega) c hc
      · simp only [List.mem_singleton] at hc
        subst hc
        exact digitCh_isDigit (by omega)

/-- With enough fuel, `natCharsAux` emits at least one character. -/
theorem natCharsAux_ne_nil : ∀ fuel n, n < fuel → natCharsAux fuel n ≠ [] := by
  intro fuel n h
  cases fuel with
  | zero => omega
  | succ f =>
    simp only [natCharsAux]
    split
    · simp
    · simp

/-- Folding the digit valuation across a one-digit extension. -/
theorem digitsVal_append_digit (l : List Char) (c : Char) :
    digitsVal (l ++ [c]) = 10 * digitsVal l + (c.toNat - 48) := by
  unfold digitsVal
  rw [List.foldl_append]
  rfl

/-- With enough fuel, the digit string evaluates back to the number. -/
theorem natCharsAux_val : ∀ fuel n, n < fuel → digitsVal (natCharsAux fuel n) = n := by
  intro fuel
  induction fuel with
  | zero => intro n h; omega
  | succ f ih =>
    intro n h
    simp only [natCharsAux]
    split
    · next h10 =>
      unfold digitsVal
      simp [digitCh_toNat h10]
    · next h10 =>
      rw [digitsVal_append_digit, ih (n / 10) (by omega),
        digitCh_toNat (by omega : n % 10 < 10)]
      omega

/-- All characters of `natChars n` are digits. -/
theorem natChars_digits (n : Nat) : ∀ c ∈ natChars n, isDigitCh c :=
  natCharsAux_digits (n + 1) n (by omega)

/-- `natChars` is never empty. -/
theorem natChars_ne_nil (n : Nat) : natChars n ≠ [] :=
  natCharsAux_ne_nil (n + 1) n (by omega)

/-- `natChars` evaluates back to its number. -/
theorem natChars_val (n : Nat) : digitsVal (natChars n) = n :=
  natCharsAux_val (n + 1) n (by omega)

/-- Decimal printing of naturals is injective. -/
theorem natChars_inj {a b : Nat} (h : natChars a = natChars b) : a = b := by
  have hv := natChars_val a
  rw [h, natChars_val b] at hv
  exact hv.symm

/-- `natChars` starts with a digit. -/
theorem natChars_head_digit (n : Nat) :
    ∃ c tl, natChars n = c :: tl ∧ isDigitCh c := by
  cases hna : natChars n with
  | nil => exact absurd hna (natChars_ne_nil n)
  | cons c tl =>
    exact ⟨c, tl, rfl, natChars_digits n c (by rw [hna]; exact List.mem_cons_self c tl)⟩

/-- Two maximal digit runs with non-digit continuations split equally. -/
theorem digit_run_split : ∀ (a b r r' : List Char),
    (∀ c ∈ a, isDigitCh c) → (∀ c ∈ b, isDigitCh c) →
    noDigitHead r → noDigitHead r' →
    a ++ r = b ++ r' → a = b ∧ r = r' := by
  intro a
  induction a with
  | nil =>
    intro b r r' _ hb hr _ h
    cases b with
    | nil => simpa using h
    | cons c tl =>
      rw [List.nil_append, List.cons_append] at h
      rw [h] at hr
      exact absurd (hb c (List.mem_cons_self c tl)) hr
  | cons x xs ih =>
    intro b r r' ha hb hr hr' h
    cases b with
    | nil =>
      rw [List.nil_append, List.cons_append] at h
      rw [← h] at hr'
      exact absurd (ha x (List.mem_cons_self x xs)) hr'
    | cons y ys =>
      simp only [List.cons_append, List.cons.injEq] at h
      obtain ⟨rfl, h2⟩ := h
      have := ih ys r r' (fun c hc => ha c (List.mem_cons_of_mem x hc))
        (fun c hc => hb c (List.mem_cons_of_mem x hc)) hr hr' h2
      exact ⟨by rw [this.1], this.2⟩

/-- `intChars` starts with a digit or a minus sign. -/
theorem intChars_head (i : Int) :
    ∃ c tl, intChars i = c :: tl ∧ (isDigitCh c ∨ c = '-') := by
  cases i with
  | ofNat n =>
    obtain ⟨c, tl, hc, hd⟩ := natChars_head_digit n
    exact ⟨c, tl, by simpa [intChars] using hc, Or.inl hd⟩
  | negSucc m => exact ⟨'-', natChars (m + 1), rfl, Or.inr rfl⟩

/-- A serialized integer followed by a non-digit determines the integer
and the continuation. -/
theorem intChars_ext : ∀ (i j : Int) (r r' : List Char),
    noDigitHead r → noDigitHead r' →
    intChars i ++ r = intChars j ++ r' → i = j ∧ r = r' := by
  have hminus : ¬isDigitCh '-' := by unfold isDigitCh; decide
  intro i j r r' hr hr' h
  cases i with
  | ofNat a =>
    cases j with
    | ofNat b =>
      simp only [intChars] at h
      have := digit_run_split (natChars a) (natChars b) r r'
        (natChars_digits a) (natChars_digits b) hr hr' h
      exact ⟨by rw [natChars_inj this.1], this.2⟩
    | negSucc m =>
      exfalso
      obtain ⟨c, tl, hc, hd⟩ := natChars_head_digit a
      simp only [intChars, hc, List.cons_append, List.cons.injEq] at h
      rw [h.1] at hd
      exact hminus hd
  | negSucc k =>
    cases j with
    | ofNat b =>
      exfalso
      obtain ⟨c, tl, hc, hd⟩ := natChars_head_digit b
      simp only [intChars, hc, List.cons_append, List.cons.injEq] at h
      rw [← h.1] at hd
      exact hminus hd
    | negSucc m =>
      simp only [intChars, List.cons_append, List.cons.injEq, true_and] at h
      have := digit_run_split (natChars (k + 1)) (natChars (m + 1)) r r'
        (natChars_digits _) (natChars_digits _) hr hr' h
      have hk := natChars_inj this.1
      have hkm : k = m := by omega
      exact ⟨by rw [hkm], this.2⟩

/-- A plain character is emitted verbatim. -/
theorem escChar_plain {c : Char} (h : plainCh c) : escChar c = [c] := by
  obtain ⟨h1, h2, h3⟩ := h
  unfold escChar
  rw [if_neg h1, if_neg h2, if_neg (by omega), if_neg (by omega), if_neg (by omega),
    if_neg (by omega), if_neg (by omega), if_neg (by omega)]

/-- Shape of the escape sequence of a non-plain character. -/
theorem escChar_shape (c : Char) (h : ¬plainCh c) :
    (c.toNat = 34 ∧ escChar c = ['\\', '"']) ∨
    (c.toNat = 92 ∧ escChar c = ['\\', '\\']) ∨
    (c.toNat = 10 ∧ escChar c = ['\\', 'n']) ∨
    (c.toNat = 13 ∧ escChar c = ['\\', 'r']) ∨
    (c.toNat = 9 ∧ escChar c = ['\\', 't']) ∨
    (c.toNat = 8 ∧ escChar c = ['\\', 'b']) ∨
    (c.toNat = 12 ∧ escChar c = ['\\', 'f']) ∨
    (c.toNat < 32 ∧
      escChar c = ['\\', 'u', '0', '0', hexDigit (c.toNat / 16), hexDigit (c.toNat % 16)]) := by
  unfold plainCh at h
  unfold escChar
  split_ifs with h1 h2 h3 h4 h5 h6 h7 h8
  · exact Or.inl ⟨h1, rfl⟩
  · exact Or.inr (Or.inl ⟨h2, rfl⟩)
  · exact Or.inr (Or.inr (Or.inl ⟨h3, rfl⟩))
  · exact Or.inr (Or.inr (Or.inr (Or.inl ⟨h4, rfl⟩)))
  · exact Or.inr (Or.inr (Or.inr (Or.inr (Or.inl ⟨h5, rfl⟩))))
  · exact Or.inr (Or.inr (Or.inr (Or.inr (Or.inr (Or.inl ⟨h6, rfl⟩)))))
  · exact Or.inr (Or.inr (Or.inr (Or.inr (Or.inr (Or.inr (Or.inl ⟨h7, rfl⟩))))))
  · exact Or.inr (Or.inr (Or.inr (Or.inr (Or.inr (Or.inr (Or.inr ⟨h8, rfl⟩))))))
  · exact absurd ⟨h1, h2, by omega⟩ h

/-- Low hexadecimal pairs are injective on codes below 32. -/
theorem hexDigit_inj_lt32 {a b : Nat} (ha : a < 32) (hb : b < 32)
    (h1 : hexDigit (a / 16) = hexDigit (b / 16))
    (h2 : hexDigit (a % 16) = hexDigit (b % 16)) : a = b := by
  have hd : ∀ x < 16, ∀ y < 16, hexDigit x = hexDigit y → x = y := by decide
  have e1 := hd (a / 16) (by omega) (b / 16) (by omega) h1
  have e2 := hd (a % 16) (by omega) (b % 16) (by omega) h2
  omega

/-- Escape sequences of two non-plain characters are mutually
prefix-free: agreeing serializations force the same character and the same
continuation. -/
theorem escChar_esc_inj {c d : Char} (hc : ¬plainCh c) (hd : ¬plainCh d)
    {u v : List Char} (h : escChar c ++ u = escChar d ++ v) : c = d ∧ u = v := by
  rcases escChar_shape c hc with
    ⟨e1, q1⟩|⟨e1, q1⟩|⟨e1, q1⟩|⟨e1, q1⟩|⟨e1, q1⟩|⟨e1, q1⟩|⟨e1, q1⟩|⟨e1, q1⟩ <;>
  rcases escChar_shape d hd with
    ⟨e2, q2⟩|⟨e2, q2⟩|⟨e2, q2⟩|⟨e2, q2⟩|⟨e2, q2⟩|⟨e2, q2⟩|⟨e2, q2⟩|⟨e2, q2⟩ <;>
  rw [q1, q2] at h <;>
  simp only [List.cons_append, List.nil_append, List.cons.injEq, true_and] at h <;>
  first
  | exact ⟨char_toNat_inj (e1.trans e2.symm), h⟩
  | exact absurd h.1 (by decide)
  | exact ⟨char_toNat_inj (hexDigit_inj_lt32 e1 e2 h.1 h.2.1), h.2.2⟩

/-- Every non-plain character escapes to a backslash-led sequence. -/
theorem escChar_backslash {c : Char} (h : ¬plainCh c) :
    ∃ k, escChar c = '\\' :: k := by
  rcases escChar_shape c h with
    ⟨_, q⟩|⟨_, q⟩|⟨_, q⟩|⟨_, q⟩|⟨_, q⟩|⟨_, q⟩|⟨_, q⟩|⟨_, q⟩ <;> exact ⟨_, q⟩

/-- An escaped string body followed by its closing quote determines the
string and the continuation (the body never exposes an unescaped
quote). -/
theorem escStr_ext : ∀ (s t r r' : List Char),
    escStr s ++ ('"' :: r) = escStr t ++ ('"' :: r') → s = t ∧ r = r' := by
  intro s
  induction s with
  | nil =>
    intro t r r' h
    cases t with
    | nil => simpa using h
    | cons d t' =>
      exfalso
      simp only [escStr, List.nil_append, List.append_assoc] at h
      by_cases hpd : plainCh d
      · rw [escChar_plain hpd] at h
        simp only [List.cons_append, List.nil_append, List.cons.injEq] at h
        exact hpd.1 (by rw [← h.1]; decide)
      · obtain ⟨k, hk⟩ := escChar_backslash hpd
        rw [hk] at h
        simp only [List.cons_append, List.cons.injEq] at h
        exact absurd h.1 (by decide)
  | cons c s' ih =>
    intro t r r' h
    cases t with
    | nil =>
      exfalso
      simp only [escStr, List.nil_append, List.append_assoc] at h
      by_cases hpc : plainCh c
      · rw [escChar_plain hpc] at h
        simp only [List.cons_append, List.nil_append, List.cons.injEq] at h
        exact hpc.1 (by rw [h.1]; decide)
      · obtain ⟨k, hk⟩ := escChar_backslash hpc
        rw [hk] at h
        simp only [List.cons_append, List.cons.injEq] at h
        exact absurd h.1 (by decide)
    | cons d t' =>
      simp only [escStr, List.append_assoc] at h
      by_cases hpc : plainCh c <;> by_cases hpd : plainCh d
      · rw [escChar_plain hpc, escChar_plain hpd] at h
        simp only [List.cons_append, List.nil_append, List.cons.injEq] at h
        obtain ⟨rfl, h2⟩ := h
        have := ih t' r r' h2
        exact ⟨by rw [this.1], this.2⟩
      · exfalso
        obtain ⟨k, hk⟩ := escChar_backslash hpd
        rw [escChar_plain hpc, hk] at h
        simp only [List.cons_append, List.nil_append, List.cons.injEq] at h
        exact hpc.2.1 (by rw [h.1]; decide)
      · exfalso
        obtain ⟨k, hk⟩ := escChar_backslash hpc
        rw [hk, escChar_plain hpd] at h
        simp only [List.cons_append, List.nil_append, List.cons.injEq] at h
        exact hpd.2.1 (by rw [← h.1]; decide)
      · obtain ⟨rfl, h2⟩ := escChar_esc_inj hpc hpd h
        have := ih t' r r' h2
        exact ⟨by rw [this.1], this.2⟩

/-- Constructor tags are bounded. -/
theorem ctorTag_le (x : Json) : ctorTag x ≤ 5 := by
  cases x <;> simp [ctorTag]

/-- Digits and the minus sign carry the number tag. -/
theorem headTag_num {c : Char} (h : isDigitCh c ∨ c = '-') : headTagOfChar c = 2 := by
  unfold headTagOfChar
  rcases h with h | rfl
  · unfold isDigitCh at h
    rw [if_neg (by omega), if_neg (by omega), if_pos (Or.inl ⟨h.1, h.2⟩)]
  · decide

/-- `noDigitHead` holds of any list headed by a non-digit. -/
theorem noDigitHead_cons {c : Char} (l : List Char) (h : ¬isDigitCh c) :
    noDigitHead (c :: l) := h

/-- The first serialized character reveals the constructor. -/
theorem stringify_head (x : Json) :
    ∃ c tl, stringify x = c :: tl ∧ headTagOfChar c = ctorTag x := by
  cases x with
  | null => exact ⟨'n', _, rfl, (by decide : headTagOfChar 'n' = 0)⟩
  | bool b =>
    cases b with
    | true => exact ⟨'t', _, rfl, (by decide : headTagOfChar 't' = 1)⟩
    | false => exact ⟨'f', _, rfl, (by decide : headTagOfChar 'f' = 1)⟩
  | num n =>
    obtain ⟨c, tl, hc, hd⟩ := intChars_head n
    exact ⟨c, tl, by simp [stringify, hc], headTag_num hd⟩
  | str s => exact ⟨'"', _, rfl, (by decide : headTagOfChar '"' = 3)⟩
  | arr es => exact ⟨'[', _, rfl, (by decide : headTagOfChar '[' = 4)⟩
  | obj fs => exact ⟨lbrace, _, rfl, (by decide : headTagOfChar lbrace = 5)⟩

/-- Serializations that agree on some extensions share a constructor. -/
theorem ctorTag_eq_of_append_eq {x y : Json} {r r' : List Char}
    (h : stringify x ++ r = stringify y ++ r') : ctorTag x = ctorTag y := by
  obtain ⟨c, tl, hc, htc⟩ := stringify_head x
  obtain ⟨d, tl', hd, htd⟩ := stringify_head y
  rw [hc, hd] at h
  simp only [List.cons_append, List.cons.injEq] at h
  rw [← htc, ← htd, h.1]

/-- A non-empty element list serializes to its head's serialization
followed by a separator-led (or empty) continuation. -/
theorem stringifyElems_cons_eq (y : Json) (ys : List Json) :
    ∃ q, stringifyElems (y :: ys) = stringify y ++ q := by
  cases ys with
  | nil => exact ⟨[], by simp [stringifyElems]⟩
  | cons y2 ys' => exact ⟨',' :: stringifyElems (y2 :: ys'), rfl⟩

/-- A non-empty field list serializes to its head key–value pair followed
by a separator-led (or empty) continuation. -/
theorem stringifyFields_cons_eq (k : List Char) (v : Json)
    (gs : List (List Char × Json)) :
    ∃ q, stringifyFields ((k, v) :: gs) =
      '"' :: (escStr k ++ ('"' :: ':' :: (stringify v ++ q))) := by
  cases gs with
  | nil => exact ⟨[], by simp [stringifyFields]⟩
  | cons g gs' =>
    obtain ⟨k2, v2⟩ := g
    exact ⟨',' :: stringifyFields ((k2, v2) :: gs'), by simp [stringifyFields]⟩

mutual

/-- A serialized JSON value followed by a non-digit continuation
determines the value and the continuation. -/
theorem stringify_ext : ∀ (x y : Json) (r r' : List Char),
    noDigitHead r → noDigitHead r' →
    stringify x ++ r = stringify y ++ r' → x = y ∧ r = r'
  | .null, .null => by
    intro r r' _ _ h
    exact ⟨rfl, by simpa using h⟩
  | .bool true, .bool true => by
    intro r r' _ _ h
    exact ⟨rfl, by simpa using h⟩
  | .bool false, .bool false => by
    intro r r' _ _ h
    exact ⟨rfl, by simpa using h⟩
  | .bool true, .bool false => by
    intro r r' _ _ h
    have h2 := congrArg List.head? h
    rw [show (stringify (.bool true) ++ r).head? = some 't' from rfl,
      show (stringify (.bool false) ++ r').head? = some 'f' from rfl] at h2
    exact absurd h2 (by decide)
  | .bool false, .bool true => by
    intro r r' _ _ h
    have h2 := congrArg List.head? h
    rw [show (stringify (.bool false) ++ r).head? = some 'f' from rfl,
      show (stringify (.bool true) ++ r').head? = some 't' from rfl] at h2
    exact absurd h2 (by decide)
  | .num a, .num b => by
    intro r r' hr hr' h
    simp only [stringify] at h
    obtain ⟨h1, h2⟩ := intChars_ext a b r r' hr hr' h
    exact ⟨by rw [h1], h2⟩
  | .str s, .str t => by
    intro r r' _ _ h
    simp only [stringify, List.cons_append, List.append_assoc,
      List.singleton_append, List.cons.injEq, true_and] at h
    obtain ⟨h1, h2⟩ := escStr_ext s t r r' h
    exact ⟨by rw [h1], h2⟩
  | .arr xs, .arr ys => by
    intro r r' _ _ h
    simp only [stringify, List.cons_append, List.append_assoc,
      List.singleton_append, List.cons.injEq, true_and] at h
    obtain ⟨h1, h2⟩ := stringifyElems_ext xs ys r r' h
    exact ⟨by rw [h1], h2⟩
  | .obj fs, .obj gs => by
    intro r r' _ _ h
    simp only [stringify, List.cons_append, List.append_assoc,
      List.singleton_append, List.cons.injEq, true_and] at h
    obtain ⟨h1, h2⟩ := stringifyFields_ext fs gs r r' h
    exact ⟨by rw [h1], h2⟩
  | .null, .bool _ | .null, .num _ | .null, .str _ | .null, .arr _ | .null, .obj _
  | .bool _, .null | .bool _, .num _ | .bool _, .str _ | .bool _, .arr _ | .bool _, .obj _
  | .num _, .null | .num _, .bool _ | .num _, .str _ | .num _, .arr _ | .num _, .obj _
  | .str _, .null | .str _, .bool _ | .str _, .num _ | .str _, .arr _ | .str _, .obj _
  | .arr _, .null | .arr _, .bool _ | .arr _, .num _ | .arr _, .str _ | .arr _, .obj _
  | .obj _, .null | .obj _, .bool _ | .obj _, .num _ | .obj _, .str _ | .obj _, .arr _ => by
    intro r r' _ _ h
    have := ctorTag_eq_of_append_eq h
    simp [ctorTag] at this

/-- Element lists with their closing bracket: same serialization, same
list and continuation. -/
theorem stringifyElems_ext : ∀ (xs ys : List Json) (r r' : List Char),
    stringifyElems xs ++ (']' :: r) = stringifyElems ys ++ (']' :: r') →
    xs = ys ∧ r = r'
  | [], [] => by
    intro r r' h
    simpa using h
  | [], y :: ys => by
    intro r r' h
    exfalso
    obtain ⟨q, hq⟩ := stringifyElems_cons_eq y ys
    obtain ⟨c, tl, hc, htc⟩ := stringify_head y
    rw [show stringifyElems ([] : List Json) = [] from rfl, List.nil_append, hq,
      List.append_assoc, hc] at h
    simp only [List.cons_append, List.cons.injEq] at h
    rw [← h.1] at htc
    rw [show headTagOfChar ']' = 9 from by decide] at htc
    have := ctorTag_le y
    omega
  | x :: xs, [] => by
    intro r r' h
    exfalso
    obtain ⟨q, hq⟩ := stringifyElems_cons_eq x xs
    obtain ⟨c, tl, hc, htc⟩ := stringify_head x
    rw [show stringifyElems ([] : List Json) = [] from rfl, List.nil_append, hq,
      List.append_assoc, hc] at h
    simp only [List.cons_append, List.cons.injEq] at h
    rw [h.1] at htc
    rw [show headTagOfChar ']' = 9 from by decide] at htc
    have := ctorTag_le x
    omega
  | x :: x2 :: xs, y :: y2 :: ys => by
    intro r r' h
    simp only [stringifyElems, List.cons_append, List.append_assoc] at h
    obtain ⟨h1, h2⟩ := stringify_ext x y _ _
      (noDigitHead_cons _ (by unfold isDigitCh; decide))
      (noDigitHead_cons _ (by unfold isDigitCh; decide)) h
    simp only [List.cons.injEq, true_and] at h2
    obtain ⟨h3, h4⟩ := stringifyElems_ext (x2 :: xs) (y2 :: ys) r r' h2
    exact ⟨by rw [h1, h3], h4⟩
  | [x], [y] => by
    intro r r' h
    simp only [stringifyElems] at h
    obtain ⟨h1, h2⟩ := stringify_ext x y (']' :: r) (']' :: r')
      (noDigitHead_cons _ (by unfold isDigitCh; decide))
      (noDigitHead_cons _ (by unfold isDigitCh; decide)) h
    simp only [List.cons.injEq, true_and] at h2
    exact ⟨by rw [h1], h2⟩
  | [x], y :: y2 :: ys => by
    intro r r' h
    exfalso
    simp only [stringifyElems, List.cons_append, List.append_assoc] at h
    obtain ⟨h1, h2⟩ := stringify_ext x y _ _
      (noDigitHead_cons _ (by unfold isDigitCh; decide))
      (noDigitHead_cons _ (by unfold isDigitCh; decide)) h
    simp only [List.cons.injEq] at h2
    exact absurd h2.1 (by decide)
  | x :: x2 :: xs, [y] => by
    intro r r' h
    exfalso
    simp only [stringifyElems, List.cons_append, List.append_assoc] at h
    obtain ⟨h1, h2⟩ := stringify_ext x y _ _
      (noDigitHead_cons _ (by unfold isDigitCh; decide))
      (noDigitHead_cons _ (by unfold isDigitCh; decide)) h
    simp only [List.cons.injEq] at h2
    exact absurd h2.1 (by decide)

/-- Field lists with their closing brace: same serialization, same list
and continuation. -/
theorem stringifyFields_ext :
    ∀ (fs gs : List (List Char × Json)) (r r' : List Char),
    stringifyFields fs ++ (rbrace :: r) = stringifyFields gs ++ (rbrace :: r') →
    fs = gs ∧ r = r'
  | [], [] => by
    intro r r' h
    simpa using h
  | [], (k, v) :: gs => by
    intro r r' h
    exfalso
    obtain ⟨q, hq⟩ := stringifyFields_cons_eq k v gs
    rw [show stringifyFields ([] : List (List Char × Json)) = [] from rfl,
      List.nil_append, hq] at h
    simp only [List.cons_append, List.cons.injEq] at h
    exact absurd h.1 (by decide)
  | (k, v) :: fs, [] => by
    intro r r' h
    exfalso
    obtain ⟨q, hq⟩ := stringifyFields_cons_eq k v fs
    rw [show stringifyFields ([] : List (List Char × Json)) = [] from rfl,
      List.nil_append, hq] at h
    simp only [List.cons_append, List.cons.injEq] at h
    exact absurd h.1 (by decide)
  | (k1, v1) :: f2 :: fs, (k2, v2) :: g2 :: gs => by
    intro r r' h
    simp only [stringifyFields, List.cons_append, List.append_assoc] at h
    simp only [List.cons.injEq, true_and] at h
    obtain ⟨hk, h2⟩ := escStr_ext k1 k2 _ _ h
    simp only [List.cons.injEq, true_and] at h2
    obtain ⟨hv, h3⟩ := stringify_ext v1 v2 _ _
      (noDigitHead_cons _ (by unfold isDigitCh; decide))
      (noDigitHead_cons _ (by unfold isDigitCh; decide)) h2
    simp only [List.cons.injEq, true_and] at h3
    obtain ⟨h4, h5⟩ := stringifyFields_ext (f2 :: fs) (g2 :: gs) r r' h3
    exact ⟨by rw [hk, hv, h4], h5⟩
  | [(k1, v1)], [(k2, v2)] => by
    intro r r' h
    simp only [stringifyFields, List.cons_append, List.append_assoc] at h
    simp only [List.cons.injEq, true_and] at h
    obtain ⟨hk, h2⟩ := escStr_ext k1 k2 _ _ h
    simp only [List.cons.injEq, true_and] at h2
    obtain ⟨hv, h3⟩ := stringify_ext v1 v2 (rbrace :: r) (rbrace :: r')
      (noDigitHead_cons _ (by unfold isDigitCh; decide))
      (noDigitHead_cons _ (by unfold isDigitCh; decide)) h2
    simp only [List.cons.injEq, true_and] at h3
    exact ⟨by rw [hk, hv], h3⟩
  | [(k1, v1)], (k2, v2) :: g2 :: gs => by
    intro r r' h
    exfalso
    simp only [stringifyFields, List.cons_append, List.append_assoc] at h
    simp only [List.cons.injEq, true_and] at h
    obtain ⟨hk, h2⟩ := escStr_ext k1 k2 _ _ h
    simp only [List.cons.injEq, true_and] at h2
    obtain ⟨hv, h3⟩ := stringify_ext v1 v2 _ _
      (noDigitHead_cons _ (by unfold isDigitCh; decide))
      (noDigitHead_cons _ (by unfold isDigitCh; decide)) h2
    simp only [List.cons.injEq] at h3
    exact absurd h3.1 (by decide)
  | (k1, v1) :: f2 :: fs, [(k2, v2)] => by
    intro r r' h
    exfalso
    simp only [stringifyFields, List.cons_append, List.append_assoc] at h
    simp only [List.cons.injEq, true_and] at h
    obtain ⟨hk, h2⟩ := escStr_ext k1 k2 _ _ h
    simp only [List.cons.injEq, true_and] at h2
    obtain ⟨hv, h3⟩ := stringify_ext v1 v2 _ _
      (noDigitHead_cons _ (by unfold isDigitCh; decide))
      (noDigitHead_cons _ (by unfold isDigitCh; decide)) h2
    simp only [List.cons.injEq] at h3
    exact absurd h3.1 (by decide)

end

/-- `JSON.stringify` is injective on the JSON model. -/
theorem stringify_inj {x y : Json} (h : stringify x = stringify y) : x = y := by
  have := stringify_ext x y [] [] trivial trivial (by simpa using h)
  exact this.1

/-- Splitting at the first colon is unambiguous when neither prefix
contains one. -/
theorem colon_split : ∀ (m₁ m₂ s₁ s₂ : List Char),
    ':' ∉ m₁ → ':' ∉ m₂ →
    m₁ ++ ':' :: s₁ = m₂ ++ ':' :: s₂ → m₁ = m₂ ∧ s₁ = s₂ := by
  intro m₁
  induction m₁ with
  | nil =>
    intro m₂ s₁ s₂ _ h2 h
    cases m₂ with
    | nil => simpa using h
    | cons c tl =>
      rw [List.nil_append, List.cons_append] at h
      simp only [List.cons.injEq] at h
      exact absurd (by rw [h.1]; exact List.mem_cons_self c tl) h2
  | cons a tl ih =>
    intro m₂ s₁ s₂ h1 h2 h
    cases m₂ with
    | nil =>
      rw [List.nil_append, List.cons_append] at h
      simp only [List.cons.injEq] at h
      exact absurd (by rw [← h.1]; exact List.mem_cons_self a tl) h1
    | cons b tl2 =>
      simp only [List.cons_append, List.cons.injEq] at h
      obtain ⟨rfl, h3⟩ := h
      obtain ⟨h4, h5⟩ := ih tl2 s₁ s₂ (fun hm => h1 (List.mem_cons_of_mem a hm))
        (fun hm => h2 (List.mem_cons_of_mem a hm)) h3
      exact ⟨by rw [h4], h5⟩

/-- No whitelisted method name contains a colon. -/
theorem cacheable_no_colon : ∀ m ∈ cacheableMethods, ':' ∉ m := by decide

/-- **C4.**  On whitelisted methods the cache key is a pure, deterministic
function of the method name and the exact (order-sensitive,
value-compared) parameter sequence, and is injective in them: two calls
collide exactly when their method names are equal and their parameter
sequences are structurally equal. -/
theorem C4_cache_key_separates (m₁ m₂ : List Char) (p₁ p₂ : List Json)
    (h₁ : m₁ ∈ cacheableMethods) (h₂ : m₂ ∈ cacheableMethods) :
    getCacheKey (.str m₁) (.arr p₁) = getCacheKey (.str m₂) (.arr p₂) ↔
      (m₁ = m₂ ∧ p₁ = p₂) := by
  constructor
  · intro h
    have hc1 : cacheableMethods.contains m₁ = true := by simpa using h₁
    have hc2 : cacheableMethods.contains m₂ = true := by simpa using h₂
    simp only [getCacheKey, hc1, hc2, if_true, truthy, Option.some.injEq] at h
    obtain ⟨hm, hs⟩ := colon_split m₁ m₂ _ _
      (cacheable_no_colon m₁ h₁) (cacheable_no_colon m₂ h₂) h
    exact ⟨hm, Json.arr.inj (stringify_inj hs)⟩
  · rintro ⟨rfl, rfl⟩
    rfl

/-- Witness for C4: identical calls collide, a one-element parameter
difference separates. -/
theorem C4_witness :
    ("eth_chainId".toList ∈ cacheableMethods) ∧
    ("eth_chainId".toList ∈ cacheableMethods) ∧
    (getCacheKey (.str ("eth_chainId".toList)) (.arr [.num 1]) =
       getCacheKey (.str ("eth_chainId".toList)) (.arr [.num 2]) ↔
      ("eth_chainId".toList = "eth_chainId".toList ∧
        ([Json.num 1] : List Json) = [Json.num 2])) :=
  ⟨by decide, by decide,
   C4_cache_key_separates _ _ _ _ (by decide) (by decide)⟩

end X402Rpc
